import Mathlib

/-!
Verification of the agent-cli package (packages/agent-cli/src/agent_cli).

The Python sources are shallowly embedded: Python strings become lists of
characters (`Str`), absolute filesystem paths become lists of path-component
strings (`FsPath`), the filesystem and operating system become an explicit
`Workspace` value (file contents, symlink table, directory-walk enumeration,
file-name matching and modification times are fields of that value), and the
language-model transport becomes an explicit list of `ModelResponse` values
consumed in order.  Fallible operations return `Except` or error strings, as
the source's exception handlers do.

Embedded modules:
* `tools.py`   — `safe_path`, `run_read`, `run_write`, `run_edit`,
  `run_glob`, `run_grep`, `run_task_update`, `execute_tool`, `BASE_TOOLS`.
* `task.py`    — `Task`, `TaskManager` (update / render / increment /
  reset / too_long_without_task).
* `agent.py`   — the agent loop body and `Agent.spawn_subagent`.
* `subagent.py`— `AGENTS`, `get_tools_for_agent`.
-/

set_option maxHeartbeats 1000000

namespace AgentCli

/-- Python strings are modelled as lists of Unicode characters. -/
abbrev Str := List Char

/-- Conversion of a Lean string literal into the model string type. -/
def lit (s : String) : Str := s.toList

/-- Decimal rendering of a natural number, as Python str(n) produces. -/
def natStr (n : Nat) : Str := (Nat.repr n).toList

/-- UTF-8 byte length of a model string. -/
def utf8Len (s : Str) : Nat := (s.map Char.utf8Size).sum

/-- Line-boundary characters of Python str.splitlines. -/
def isLineBreak (c : Char) : Bool :=
  c = '\n' || c = '\r' || c = '\x0b' || c = '\x0c' ||
  c = '\x1c' || c = '\x1d' || c = '\x1e' || c = '\u0085' ||
  c = ' ' || c = ' '

/-- Worker for `splitlines`: `cur` holds the current line reversed.  A CRLF
pair is a single boundary and a terminal boundary yields no trailing empty
line, as in Python. -/
def splitlinesGo : Str → Str → List Str
  | [], cur => [cur.reverse]
  | [c], cur =>
      if isLineBreak c then [cur.reverse] else [(c :: cur).reverse]
  | c :: d :: rest, cur =>
      if isLineBreak c then
        if c = '\r' ∧ d = '\n' then
          cur.reverse :: (if rest.isEmpty then [] else splitlinesGo rest [])
        else
          cur.reverse :: splitlinesGo (d :: rest) []
      else splitlinesGo (d :: rest) (c :: cur)

/-- Python str.splitlines; the empty string yields no lines. -/
def splitlines (s : Str) : List Str :=
  if s.isEmpty then [] else splitlinesGo s []

/-- Python str.strip() with no arguments: remove leading and trailing
whitespace. -/
def strip (s : Str) : Str :=
  ((s.dropWhile Char.isWhitespace).reverse.dropWhile Char.isWhitespace).reverse

/-- Lexicographic comparison on model strings, matching Python string
ordering by code point.  Used for the sorted outputs of Grep. -/
def strLe : Str → Str → Bool
  | [], _ => true
  | _ :: _, [] => false
  | a :: as, b :: bs => if a < b then true else if b < a then false else strLe as bs

/-- Index of the first occurrence of `pat` as a contiguous substring of `s`,
the position Python str.find / the `in` operator locate. -/
def firstOccurIdx : Str → Str → Option Nat
  | s, pat =>
    match s with
    | [] => if pat.isEmpty then some 0 else none
    | c :: rest =>
      if pat.isPrefixOf (c :: rest) then some 0
      else (firstOccurIdx rest pat).map (fun n => n + 1)

/-- Python content.replace(old, new, 1): replace only the first occurrence
of `old`, or return the string unchanged when `old` does not occur. -/
def replaceFirst (s old new : Str) : Str :=
  match firstOccurIdx s old with
  | none => s
  | some i => s.take i ++ new ++ s.drop (i + old.length)

/-! ## Paths and the workspace

Absolute paths are lists of component names; the empty list is the
filesystem root.  The operating-system state a tool run can observe is a
`Workspace`: file contents, the symlink table consulted by
pathlib.Path.resolve, the file enumeration produced by os.walk after the
DEFAULT_EXCLUDED_DIRS pruning, modification times, and fnmatch. -/

/-- Absolute filesystem paths as component lists. -/
abbrev FsPath := List Str

/-- Worker splitting a path string at every slash. -/
def splitCompsGo : Str → Str → List Str
  | [], cur => [cur.reverse]
  | c :: rest, cur =>
      if c = '/' then cur.reverse :: splitCompsGo rest []
      else splitCompsGo rest (c :: cur)

/-- Path-component decomposition of a path string, as pathlib performs
(empty components produced by repeated or leading slashes are dropped later
during resolution). -/
def splitComps (s : Str) : List Str := splitCompsGo s []

/-- Rendering of an absolute path, as Python str(Path(...)). -/
def pathStr (p : FsPath) : Str := '/' :: List.intercalate (lit "/") p

/-- Symbolic-link table of the operating system: a resolved absolute path
that is a symlink maps to its absolute target.  This abstracts the state
pathlib.Path.resolve consults. -/
structure LinkTable where
  links : FsPath → Option FsPath

/-- Worker for `resolvePath`.  Components are processed left to right:
empty and dot components are dropped, a dot-dot component removes the last
resolved component (a no-op at the root, as in POSIX), and any other
component is looked up in the symlink table, expanding the target
recursively.  The fuel bounds symlink expansion, abstracting the
operating system's symlink-loop limit. -/
def resolveGo (lt : LinkTable) : Nat → FsPath → List Str → FsPath
  | 0, acc, _ => acc
  | _ + 1, acc, [] => acc
  | fuel + 1, acc, comp :: rest =>
    if comp = [] || comp = lit "." then resolveGo lt fuel acc rest
    else if comp = lit ".." then resolveGo lt fuel acc.dropLast rest
    else
      match lt.links (acc ++ [comp]) with
      | some target => resolveGo lt fuel (resolveGo lt fuel [] target) rest
      | none => resolveGo lt fuel (acc ++ [comp]) rest

/-- pathlib.Path.resolve on an already-joined component list. -/
def resolvePath (lt : LinkTable) (comps : List Str) : FsPath :=
  resolveGo lt (64 + 4 * comps.length) [] comps

/-- pathlib join `workdir / path`: an absolute right operand discards the
left operand. -/
def pathJoin (workdir : FsPath) (path : Str) : List Str :=
  if path.head? = some '/' then splitComps path else workdir ++ splitComps path

/-- tools.safe_path: resolve `(workdir / path)` fully (symlinks included)
and then require the result to be equal to or a descendant of `workdir`;
otherwise raise ValueError with the escape message.  The `Except` error is
the exception text later formatted by every tool's handler. -/
def safe_path (lt : LinkTable) (workdir : FsPath) (path : Str) : Except Str FsPath :=
  let resolved := resolvePath lt (pathJoin workdir path)
  if workdir.isPrefixOf resolved then .ok resolved
  else .error (lit "Path escapes workspace: " ++ path)

/-- Observable operating-system state for the filesystem tools. -/
structure Workspace where
  lt : LinkTable
  files : FsPath → Option Str
  walk : FsPath → List FsPath
  mtime : FsPath → Nat
  fnmatch : Str → Str → Bool

/-- Overwrite (or create) one file. -/
def setFile (w : Workspace) (p : FsPath) (c : Str) : Workspace :=
  { w with files := fun q => if q = p then some c else w.files q }

/-! ## Filesystem tools (tools.py) -/

/-- tools.run_read: resolve the path, read the file, optionally keep only
the first `limit` lines followed by a more-lines marker, join with newlines
and truncate to 50000 characters.  Any exception (path escape, missing
file) is returned as an Error string. -/
def run_read (w : Workspace) (workdir : FsPath) (path : Str) (limit : Option Int) : Str :=
  match safe_path w.lt workdir path with
  | .error e => lit "Error: " ++ e
  | .ok p =>
    match w.files p with
    | none => lit "Error: [Errno 2] No such file or directory: " ++ pathStr p
    | some text =>
      let lines := splitlines text
      let total := lines.length
      let shown :=
        match limit with
        | some l =>
          if 0 < l ∧ l < (total : Int) then
            lines.take l.toNat ++ [lit "... (" ++ natStr (total - l.toNat) ++ lit " more lines)"]
          else lines
        | none => lines
      (List.intercalate (lit "\n") shown).take 50000

/-- tools.run_write: resolve the path and overwrite the file (parent
directories, which the source creates as needed, are not represented). -/
def run_write (w : Workspace) (workdir : FsPath) (path : Str) (content : Str) :
    Str × Workspace :=
  match safe_path w.lt workdir path with
  | .error e => (lit "Error: " ++ e, w)
  | .ok p =>
    (lit "Wrote " ++ natStr content.length ++ lit " bytes to " ++ path, setFile w p content)

/-- tools.run_edit: resolve, read, fail when `old` does not occur, else
replace only the first occurrence and write back. -/
def run_edit (w : Workspace) (workdir : FsPath) (path old new : Str) :
    Str × Workspace :=
  match safe_path w.lt workdir path with
  | .error e => (lit "Error: " ++ e, w)
  | .ok p =>
    match w.files p with
    | none => (lit "Error: [Errno 2] No such file or directory: " ++ pathStr p, w)
    | some content =>
      if (firstOccurIdx content old).isNone then
        (lit "Error: Text not found in " ++ path, w)
      else
        (lit "Edited " ++ path, setFile w p (replaceFirst content old new))

/-- tools.run_glob: resolve the search root, enumerate files (os.walk with
excluded-directory pruning is the workspace's `walk` field), filter with
fnmatch against `"*" ++ pattern`, and sort by modification time newest
first. -/
def run_glob (w : Workspace) (workdir : FsPath) (pattern : Str) (path : Option Str) : Str :=
  match safe_path w.lt workdir (path.getD (lit ".")) with
  | .error e => lit "Error: " ++ e
  | .ok root =>
    let matched := (w.walk root).filter (fun f => w.fnmatch (pathStr f) ('*' :: pattern))
    let files := matched.mergeSort (fun a b => w.mtime b ≤ w.mtime a)
    let result := List.intercalate (lit "\n") (files.map pathStr)
    if result = [] then lit "(no matches)" else result.take 50000

/-! ## Grep (tools.run_grep) -/

/-- Accumulated search state of run_grep's file loop: content-mode match
lines, the matching files (insertion order; the source keeps a set and
sorts it on output) and per-file match counts. -/
structure GrepState where
  content : List Str
  fileSet : List Str
  counts : List (Str × Nat)

/-- Python count_matches[f] = count_matches.get(f, 0) + 1. -/
def bumpCount : List (Str × Nat) → Str → List (Str × Nat)
  | [], f => [(f, 1)]
  | (g, k) :: rest, f =>
      if g = f then (g, k + 1) :: rest else (g, k) :: bumpCount rest f

/-- Bookkeeping of run_grep for one matching line: record the file, bump
its count, and in content mode append the formatted match line. -/
def grepLine (mode : String) (n : Bool) (fstr : Str) (lineNum : Nat) (line : Str)
    (st : GrepState) : GrepState :=
  { content := st.content ++
      (if mode = "content" then
        [if n then fstr ++ ':' :: natStr lineNum ++ ':' :: line else fstr ++ ':' :: line]
       else []),
    fileSet := if st.fileSet.contains fstr then st.fileSet else st.fileSet ++ [fstr],
    counts := bumpCount st.counts fstr }

/-- run_grep's inner loop over the enumerated lines of one readable file. -/
def grepFile (matcher : Str → Bool) (mode : String) (n : Bool) (fstr : Str) (text : Str)
    (st : GrepState) : GrepState :=
  (splitlines text).enum.foldl
    (fun acc p => if matcher p.2 then grepLine mode n fstr (p.1 + 1) p.2 acc else acc) st

/-- run_grep's outer loop over candidate files, with the content-mode early
exit once at least head_limit + offset matches are collected; unreadable
files (no content in the workspace) are skipped as the source's except
clause does.  Returns the final state and the number of files iterated. -/
def grepScanGo (w : Workspace) (matcher : Str → Bool) (mode : String) (n : Bool)
    (headLimit offset : Int) : List FsPath → GrepState → Nat → GrepState × Nat
  | [], st, visited => (st, visited)
  | f :: rest, st, visited =>
    match w.files f with
    | none => grepScanGo w matcher mode n headLimit offset rest st (visited + 1)
    | some text =>
      let st2 := grepFile matcher mode n (pathStr f) text st
      if mode = "content" ∧ headLimit > 0 ∧ (st2.content.length : Int) ≥ headLimit + offset then
        (st2, visited + 1)
      else grepScanGo w matcher mode n headLimit offset rest st2 (visited + 1)

/-- Last path component, Python Path.name, used by the glob file filter. -/
def lastName (p : FsPath) : Str := (p.getLast?).getD []

/-- Content-mode result assembly of run_grep: join the collected match
lines, then apply the offset and head_limit slicing steps, each performed
on the joined string via splitlines as in the source. -/
def grepSlice (content : List Str) (headLimit offset : Int) : Str :=
  let r1 := List.intercalate (lit "\n") content
  let r2 :=
    if offset > 0 then List.intercalate (lit "\n") ((splitlines r1).drop offset.toNat)
    else r1
  if headLimit > 0 then List.intercalate (lit "\n") ((splitlines r2).take headLimit.toNat)
  else r2

/-- tools.run_grep.  The compiled regular expression is abstracted as an
optional line predicate: `none` models an re.error raised by re.compile,
and the case-insensitivity flag is already part of the predicate.  Output
modes, the glob filter, offset and head_limit slicing (performed on the
joined string via splitlines, as in the source) and the 50000-character
cap mirror the source's code paths.  The source quotes the unknown output
mode in its error message; the quotes are omitted here. -/
def run_grep (w : Workspace) (workdir : FsPath) (matcher : Option (Str → Bool))
    (patternText : Str) (path : Option Str) (mode : String) (glob : Option Str)
    (n : Bool) (headLimit offset : Int) : Str :=
  match matcher with
  | none => lit "Error: Invalid regex pattern: " ++ patternText
  | some rx =>
    match safe_path w.lt workdir (path.getD (lit ".")) with
    | .error e => lit "Error: " ++ e
    | .ok sp =>
      let files :=
        if (w.files sp).isSome then [sp]
        else
          match glob with
          | some g => (w.walk sp).filter (fun f => w.fnmatch (lastName f) g)
          | none => w.walk sp
      let (st, _) := grepScanGo w rx mode n headLimit offset files ⟨[], [], []⟩ 0
      let result :=
        if mode = "content" then
          grepSlice st.content headLimit offset
        else if mode = "files_with_matches" then
          List.intercalate (lit "\n") (st.fileSet.mergeSort strLe)
        else if mode = "count" then
          List.intercalate (lit "\n")
            ((st.counts.mergeSort (fun a b => strLe a.1 b.1)).map
              (fun p => p.1 ++ ':' :: natStr p.2))
        else lit "Error: Unknown output_mode " ++ lit mode
      if result = [] then lit "(no matches)" else result.take 50000

/-! ## Task tracking (task.py) -/

/-- task.Task: one entry of the tracked list. -/
structure Task where
  content : Str
  status : Str
  active_form : Str
deriving DecidableEq

/-- Raw task dictionary sent by the model; every key may be absent. -/
structure RawTask where
  content : Option Str := none
  status : Option Str := none
  active_form : Option Str := none
deriving DecidableEq

/-- TaskManager._dict_to_task: missing keys default (status to pending) and
every field is stripped. -/
def dictToTask (t : RawTask) : Task :=
  { content := strip (t.content.getD []),
    status := strip (t.status.getD (lit "pending")),
    active_form := strip (t.active_form.getD []) }

/-- task.TaskManager: the validated task list and the nag counter. -/
structure TaskManager where
  tasks : List Task
  rounds_without_task : Nat
deriving DecidableEq

def INITIAL_REMINDER : Str := lit "<reminder>Use TaskUpdate for multi-step tasks.</reminder>"

def NAG_REMINDER : Str :=
  lit "<reminder>10+ turns without task update. Please update tasks.</reminder>"

def MAX_TASKS : Nat := 20

/-- Validation loop of TaskManager.update: resolve each dictionary, check
content, status and active_form in that order, and count the in_progress
entries.  The error string is the ValueError text (the source quotes the
offending status value in the invalid-status message; the value is omitted
here). -/
def validateGo : List RawTask → Nat → Except Str (List Task × Nat)
  | [], _ => .ok ([], 0)
  | t :: rest, i =>
    let rt := dictToTask t
    if rt.content = [] then .error (lit "Task " ++ natStr i ++ lit ": content required")
    else if ¬ (rt.status = lit "pending" ∨ rt.status = lit "in_progress" ∨
               rt.status = lit "completed") then
      .error (lit "Task " ++ natStr i ++ lit ": invalid status")
    else if rt.active_form = [] then
      .error (lit "Task " ++ natStr i ++ lit ": active form required")
    else
      match validateGo rest (i + 1) with
      | .error e => .error e
      | .ok (ts, c) =>
          .ok (rt :: ts, (if rt.status = lit "in_progress" then 1 else 0) + c)

/-- TaskManager.render: one line per task with a status glyph, then the
completion summary line. -/
def TaskManager.render (tm : TaskManager) : Str :=
  if tm.tasks = [] then lit "No tasks"
  else
    let lines := tm.tasks.map (fun t =>
      if t.status = lit "completed" then lit "✔ " ++ t.content
      else if t.status = lit "in_progress" then
        lit "▣ " ++ t.content ++ lit " <- " ++ t.active_form
      else lit "☐ " ++ t.content)
    let completed := (tm.tasks.filter (fun t => t.status = lit "completed")).length
    List.intercalate (lit "\n")
      (lines ++ [lit "\n(" ++ natStr completed ++ lit "/" ++ natStr tm.tasks.length ++
                 lit " completed)"])

/-- TaskManager.update: validate every entry, then reject oversized lists
and more than one in_progress entry; only on success is the stored list
replaced. -/
def TaskManager.update (tm : TaskManager) (tasks : List RawTask) :
    Except Str (TaskManager × Str) :=
  match validateGo tasks 0 with
  | .error e => .error e
  | .ok (validated, inProg) =>
    if validated.length > MAX_TASKS then
      .error (lit "Maximum " ++ natStr MAX_TASKS ++ lit " tasks allowed")
    else if inProg > 1 then
      .error (lit "Only one task can be in progress at a time")
    else
      let tm2 := { tm with tasks := validated }
      .ok (tm2, tm2.render)

def TaskManager.increment (tm : TaskManager) : TaskManager :=
  { tm with rounds_without_task := tm.rounds_without_task + 1 }

def TaskManager.reset (tm : TaskManager) : TaskManager :=
  { tm with rounds_without_task := 0 }

def TaskManager.too_long_without_task (tm : TaskManager) : Bool :=
  tm.rounds_without_task > 10

/-- tools.run_task_update: a ValueError raised by update is caught and
returned as an Error string; the manager is then the one from before the
call. -/
def run_task_update (tm : TaskManager) (tasks : List RawTask) : TaskManager × Str :=
  match tm.update tasks with
  | .ok (tm2, rendered) => (tm2, rendered)
  | .error e => (tm, lit "Error: " ++ e)

/-! ## Tool dispatch (tools.execute_tool) -/

/-- Tool-call arguments: the dictionary the model supplies.  Fields are
optional like dictionary keys; a missing required key (a KeyError in the
source) is modelled by the empty default the accessor supplies. -/
structure ToolArgs where
  command : Option Str := none
  path : Option Str := none
  limit : Option Int := none
  content : Option Str := none
  old_text : Option Str := none
  new_text : Option Str := none
  pattern : Option Str := none
  output_mode : Option String := none
  glob : Option Str := none
  i : Option Bool := none
  n : Option Bool := none
  head_limit : Option Int := none
  offset : Option Int := none
  query : Option Str := none
  url : Option Str := none
  prompt : Option Str := none
  tasks : Option (List RawTask) := none
  agent_type : Option String := none
  description : Option Str := none
  skill_name : Option Str := none
deriving DecidableEq

/-- Execution context of execute_tool: the workspace root plus the
capabilities a handler may use.  run_bash (the subprocess), WebSearch,
WebReader, the skill loader and re.compile are abstracted as oracle
functions of the context. -/
structure ExecCtx where
  workdir : FsPath
  bashRun : Str → Str
  webSearch : Str → Str
  webFetch : Str → Str → Str
  skillRun : Str → Str
  regexCompile : Str → Bool → Option (Str → Bool)
  spawn_subagent : Option (String → Str → Str → Str)
  task_manager : Option TaskManager

/-- tools.execute_tool: dispatch on the tool name, mirroring the match
statement of the source.  The result triple is the tool-result string, the
workspace after the call, and the context's task manager after the call. -/
def execute_tool (ctx : ExecCtx) (w : Workspace) (name : String) (args : ToolArgs) :
    Str × Workspace × Option TaskManager :=
  match name with
  | "Bash" => (ctx.bashRun (args.command.getD []), w, ctx.task_manager)
  | "Read" => (run_read w ctx.workdir (args.path.getD []) args.limit, w, ctx.task_manager)
  | "Write" =>
    let (out, w2) := run_write w ctx.workdir (args.path.getD []) (args.content.getD [])
    (out, w2, ctx.task_manager)
  | "Edit" =>
    let (out, w2) := run_edit w ctx.workdir (args.path.getD [])
      (args.old_text.getD []) (args.new_text.getD [])
    (out, w2, ctx.task_manager)
  | "Glob" => (run_glob w ctx.workdir (args.pattern.getD []) args.path, w, ctx.task_manager)
  | "Grep" =>
    let pat := args.pattern.getD []
    (run_grep w ctx.workdir (ctx.regexCompile pat (args.i.getD false)) pat args.path
      (args.output_mode.getD "content") args.glob (args.n.getD true)
      (args.head_limit.getD 0) (args.offset.getD 0), w, ctx.task_manager)
  | "WebSearch" => (ctx.webSearch (args.query.getD []), w, ctx.task_manager)
  | "WebReader" => (ctx.webFetch (args.url.getD []) (args.prompt.getD []), w, ctx.task_manager)
  | "TaskUpdate" =>
    match ctx.task_manager with
    | none => (lit "Error: TaskUpdate not available in this context", w, none)
    | some tm =>
      let (tm2, out) := run_task_update tm (args.tasks.getD [])
      (out, w, some tm2)
  | "Task" =>
    match ctx.spawn_subagent with
    | none => (lit "Error: Task tool not available in this context", w, ctx.task_manager)
    | some f =>
      (f (args.agent_type.getD "") (args.prompt.getD []) (args.description.getD []),
       w, ctx.task_manager)
  | "Skill" => (ctx.skillRun (args.skill_name.getD []), w, ctx.task_manager)
  | other => (lit "Unknown tool: " ++ lit other, w, ctx.task_manager)

/-! ## Conversation blocks and the agent loop (agent.py) -/

/-- Content blocks of a model or user message. -/
inductive CBlock where
  | thinking (s : Str)
  | text (s : Str)
  | toolUse (id : Str) (name : String) (input : ToolArgs)
  | toolResult (id : Str) (content : Str)
deriving DecidableEq

/-- One conversation message. -/
structure Message where
  role : String
  content : List CBlock
deriving DecidableEq

/-- One response of the language-model transport. -/
structure ModelResponse where
  content : List CBlock
  stop_reason : String
deriving DecidableEq

/-- Tool-use blocks of a response's content, in emission order (step 2 of
the loop). -/
def toolUses (blocks : List CBlock) : List (Str × String × ToolArgs) :=
  blocks.filterMap (fun b =>
    match b with
    | .toolUse id nm input => some (id, nm, input)
    | _ => none)

/-- Serial execution of a turn's tool calls (step 4 of the loop): each call
is dispatched with the current task manager in context, and its result
block carries the originating tool-use id. -/
def execCallsGo (mkCtx : TaskManager → ExecCtx) :
    List (Str × String × ToolArgs) → Workspace → TaskManager →
    List CBlock × Workspace × TaskManager
  | [], w, tm => ([], w, tm)
  | (id, nm, input) :: rest, w, tm =>
    let (out, w2, tmOpt) := execute_tool (mkCtx tm) w nm input
    let tm2 := tmOpt.getD tm
    let (res, w3, tm3) := execCallsGo mkCtx rest w2 tm2
    (CBlock.toolResult id out :: res, w3, tm3)

/-- Mutable state of Agent._agent_loop between iterations (UI effects and
the interrupt flag are not modelled). -/
structure AgentState where
  messages : List Message
  tm : TaskManager
  w : Workspace

/-- One iteration of Agent._agent_loop for a given model response: return
when the stop reason is not tool_use; otherwise execute the tool calls in
order, reset or increment the nag counter according to whether any invoked
tool was TaskUpdate, append the assistant message, and append a user
message holding the tool results with the nag reminder inserted at
position 0 when the counter is over the threshold.  The Bool is true when
the loop returns. -/
def agentStep (base : ExecCtx) (st : AgentState) (resp : ModelResponse) :
    AgentState × Bool :=
  if resp.stop_reason ≠ "tool_use" then
    ({ st with messages := st.messages ++ [⟨"assistant", resp.content⟩] }, true)
  else
    let calls := toolUses resp.content
    let (results, w2, tm2) :=
      execCallsGo (fun tm => { base with task_manager := some tm }) calls st.w st.tm
    let used_task := calls.any (fun c => c.2.1 = "TaskUpdate")
    let tm3 := if used_task then tm2.reset else tm2.increment
    let results2 :=
      if tm3.too_long_without_task then CBlock.text NAG_REMINDER :: results else results
    ({ messages := st.messages ++ [⟨"assistant", resp.content⟩, ⟨"user", results2⟩],
       tm := tm3, w := w2 }, false)

/-- Agent._agent_loop run against a finite script of model responses. -/
def agentLoop (base : ExecCtx) : AgentState → List ModelResponse → AgentState
  | st, [] => st
  | st, r :: rs =>
    let (st2, done) := agentStep base st r
    if done then st2 else agentLoop base st2 rs

/-! ## Subagents (subagent.py and Agent.spawn_subagent) -/

/-- Tool registry entry; the model-visible description and JSON input
schema carried by the source's ToolParam dictionaries do not affect
control flow and are reduced to the tool name. -/
structure ToolParam where
  name : String
deriving DecidableEq

/-- tools.BASE_TOOLS, in source order. -/
def BASE_TOOLS : List ToolParam :=
  [⟨"Bash"⟩, ⟨"Read"⟩, ⟨"Write"⟩, ⟨"Edit"⟩, ⟨"Glob"⟩, ⟨"Grep"⟩,
   ⟨"WebSearch"⟩, ⟨"WebReader"⟩, ⟨"TaskUpdate"⟩]

/-- Tool whitelist of one agent type: an explicit name list or the star
wildcard. -/
inductive ToolsSpec where
  | star
  | list (names : List String)
deriving DecidableEq

/-- Per-type configuration of subagent.AGENTS. -/
structure AgentSpec where
  description : String
  tools : ToolsSpec
  prompt : String
deriving DecidableEq

/-- subagent.AGENTS as a lookup on the agent-type name. -/
def AGENTS : String → Option AgentSpec := fun t =>
  if t = "Explore" then
    some ⟨"Read-only agent for exploring code, finding files, searching",
          .list ["Bash", "Read"],
          "You are an exploration agent. Search and analyze, but never modify files. Return a concise summary."⟩
  else if t = "Plan" then
    some ⟨"Planning agent for designing implementation strategies",
          .list ["Bash", "Read"],
          "You are a planning agent. Analyze the codebase and output a numbered implementation plan. Do NOT make changes."⟩
  else if t = "Code" then
    some ⟨"Full agent for implementing features and fixing bugs",
          .star,
          "You are a coding agent. Implement the requested changes efficiently."⟩
  else none

/-- subagent.get_tools_for_agent: an unknown type defaults to the star
wildcard; star grants exactly BASE_TOOLS (which never includes Task),
otherwise BASE_TOOLS is filtered by the whitelist. -/
def get_tools_for_agent (agent_type : String) : List ToolParam :=
  let allowed :=
    match AGENTS agent_type with
    | some spec => spec.tools
    | none => ToolsSpec.star
  match allowed with
  | .star => BASE_TOOLS
  | .list names => BASE_TOOLS.filter (fun tool => names.contains tool.name)

/-- Execution context used for every tool call inside a subagent: the
parent's context with no spawn_subagent callback (passed as None in the
source) and no task manager (the source omits the argument, whose default
is None). -/
def subagentCtx (parent : ExecCtx) : ExecCtx :=
  { parent with spawn_subagent := none, task_manager := none }

/-- Serial tool execution of the subagent loop. -/
def subExecCallsGo (ctx : ExecCtx) :
    List (Str × String × ToolArgs) → Workspace → List CBlock × Workspace
  | [], w => ([], w)
  | (id, nm, input) :: rest, w =>
    let (out, w2, _) := execute_tool ctx w nm input
    let (res, w3) := subExecCallsGo ctx rest w2
    (CBlock.toolResult id out :: res, w3)

/-- Turn loop of Agent.spawn_subagent, run against a finite response
script.  Returns the message arrays passed to the model calls in order,
the final response, the tool-call count and the workspace. -/
def subagentLoopGo (ctx : ExecCtx) :
    List ModelResponse → List Message → Workspace → Nat →
    List (List Message) × Option ModelResponse × Nat × Workspace
  | [], _, w, tc => ([], none, tc, w)
  | resp :: rest, messages, w, tc =>
    if resp.stop_reason ≠ "tool_use" then ([messages], some resp, tc, w)
    else
      let calls := toolUses resp.content
      let (results, w2) := subExecCallsGo ctx calls w
      let (trace, final, tc2, w3) := subagentLoopGo ctx rest
        (messages ++ [⟨"assistant", resp.content⟩, ⟨"user", results⟩]) w2 (tc + calls.length)
      (messages :: trace, final, tc2, w3)

/-- First text block of a content list, the subagent's projected result. -/
def firstText : List CBlock → Option Str
  | [] => none
  | .text s :: _ => some s
  | _ :: rest => firstText rest

/-- Agent.spawn_subagent: reject unknown agent types (the source quotes
the type name in that message; the quotes are omitted here), build an
isolated one-message conversation holding the caller's prompt, run the
loop with the restricted context, and project the first text block of the
final response (or the fixed sentinel). -/
def spawn_subagent (parent : ExecCtx) (w : Workspace) (oracle : List ModelResponse)
    (agent_type : String) (prompt : Str) :
    Str × List (List Message) × Nat × Workspace :=
  match AGENTS agent_type with
  | none => (lit "Error: Unknown agent type " ++ lit agent_type, [], 0, w)
  | some _spec =>
    let messages : List Message := [⟨"user", [CBlock.text prompt]⟩]
    let (trace, final, tc, w2) := subagentLoopGo (subagentCtx parent) oracle messages w 0
    let out :=
      match final with
      | some resp => (firstText resp.content).getD (lit "(subagent returned no text)")
      | none => lit "(subagent returned no text)"
    (out, trace, tc, w2)

/-! ## Fixtures for the concrete scenarios -/

/-- Symlink-free operating system of a fresh workspace. -/
def noLinks : LinkTable := ⟨fun _ => none⟩

/-- Workspace root directory used by the concrete scenarios. -/
def testRoot : FsPath := [lit "home", lit "ws"]

/-- Fresh workspace whose file table is the given association list. -/
def wsWith (fs : List (FsPath × Str)) : Workspace :=
  { lt := noLinks,
    files := fun p => (fs.find? (fun q => q.1 = p)).map (fun q => q.2),
    walk := fun _ => fs.map (fun q => q.1),
    mtime := fun _ => 0,
    fnmatch := fun _ _ => true }

/-- Minimal execution context for the concrete scenarios. -/
def testCtx : ExecCtx :=
  { workdir := testRoot,
    bashRun := fun _ => lit "ok",
    webSearch := fun _ => lit "(no results)",
    webFetch := fun _ _ => [],
    skillRun := fun _ => [],
    regexCompile := fun _ _ => none,
    spawn_subagent := none,
    task_manager := none }

/-- Ordering property asserted by the specification for a tool-result user
message: every tool-result block occurs before every text block of the
message. -/
def toolResultsPrecedeTextBlocks (blocks : List CBlock) : Bool :=
  blocks.enum.all (fun p =>
    match p.2 with
    | .toolResult _ _ =>
        blocks.enum.all (fun q =>
          match q.2 with
          | .text _ => p.1 < q.1
          | _ => true)
    | _ => true)

/-! # Lemmas

Shared facts about the string workers, followed by one theorem per
specification claim (each with its witness or counterexample). -/

theorem intercalate_single (sep x : Str) : List.intercalate sep [x] = x := by
  simp [List.intercalate]

theorem intercalate_cons₂ (sep x y : Str) (t : List Str) :
    List.intercalate sep (x :: y :: t) = x ++ sep ++ List.intercalate sep (y :: t) := by
  simp [List.intercalate, List.intersperse]

theorem splitlinesGo_nl (rest cur : Str) :
    splitlinesGo ('\n' :: rest) cur = cur.reverse :: splitlines rest := by
  cases rest with
  | nil => rfl
  | cons d rest2 =>
    rw [splitlinesGo]
    rw [if_pos (by decide), if_neg (by rintro ⟨h, _⟩; exact absurd h (by decide))]
    rw [splitlines, if_neg (by simp)]

theorem splitlinesGo_nobreak_cons (c : Char) (rest cur : Str) (hb : isLineBreak c = false) :
    splitlinesGo (c :: rest) cur = splitlinesGo rest (c :: cur) := by
  cases rest with
  | nil => simp [splitlinesGo, hb]
  | cons d rest2 =>
    rw [show splitlinesGo (c :: d :: rest2) cur =
          if isLineBreak c then
            if c = '\r' ∧ d = '\n' then
              cur.reverse :: (if rest2.isEmpty then [] else splitlinesGo rest2 [])
            else cur.reverse :: splitlinesGo (d :: rest2) []
          else splitlinesGo (d :: rest2) (c :: cur) from rfl]
    rw [if_neg (by simp [hb])]

theorem splitlinesGo_nobreak (s cur : Str) (h : ∀ c ∈ s, isLineBreak c = false) :
    splitlinesGo s cur = [cur.reverse ++ s] := by
  induction s generalizing cur with
  | nil => simp [splitlinesGo]
  | cons c rest ih =>
    rw [splitlinesGo_nobreak_cons c rest cur (h c (by simp))]
    rw [ih (c :: cur) (fun d hd => h d (by simp [hd]))]
    simp

theorem splitlines_nobreak (s : Str) (hne : s ≠ []) (h : ∀ c ∈ s, isLineBreak c = false) :
    splitlines s = [s] := by
  rw [splitlines, if_neg (by simpa using hne), splitlinesGo_nobreak s [] h]
  simp

theorem splitlinesGo_append_nl (l rest cur : Str) (h : ∀ c ∈ l, isLineBreak c = false) :
    splitlinesGo (l ++ '\n' :: rest) cur = (cur.reverse ++ l) :: splitlines rest := by
  induction l generalizing cur with
  | nil => simpa using splitlinesGo_nl rest cur
  | cons c l2 ih =>
    rw [List.cons_append, splitlinesGo_nobreak_cons c _ cur (h c (by simp))]
    rw [ih (c :: cur) (fun d hd => h d (by simp [hd]))]
    simp

theorem splitlines_append_nl (l rest : Str) (h : ∀ c ∈ l, isLineBreak c = false) :
    splitlines (l ++ '\n' :: rest) = l :: splitlines rest := by
  rw [splitlines, if_neg (by simp), splitlinesGo_append_nl l rest [] h]
  simp

theorem splitlines_intercalate (L : List Str)
    (h : ∀ x ∈ L, x ≠ [] ∧ ∀ c ∈ x, isLineBreak c = false) :
    splitlines (List.intercalate (lit "\n") L) = L := by
  induction L with
  | nil => simp [List.intercalate, splitlines]
  | cons x t ih =>
    cases t with
    | nil =>
      rw [intercalate_single]
      exact splitlines_nobreak x (h x (by simp)).1 (h x (by simp)).2
    | cons y t2 =>
      rw [intercalate_cons₂]
      have : x ++ lit "\n" ++ List.intercalate (lit "\n") (y :: t2) =
          x ++ '\n' :: List.intercalate (lit "\n") (y :: t2) := by
        simp [lit]
      rw [this, splitlines_append_nl x _ (h x (by simp)).2]
      rw [ih (fun z hz => h z (by simp [hz]))]

theorem splitlinesGo_ne_nil (s cur : Str) : splitlinesGo s cur ≠ [] := by
  induction s, cur using splitlinesGo.induct with
  | case1 cur => simp [splitlinesGo]
  | case2 c cur h => simp [splitlinesGo, h]
  | case3 c cur h => simp [splitlinesGo, h]
  | case4 c d rest cur h1 h2 ih => simp [splitlinesGo, h1, h2, isLineBreak]
  | case5 c d rest cur h1 h2 ih => simp [splitlinesGo, h1, h2]
  | case6 c d rest cur h ih =>
    rw [splitlinesGo_nobreak_cons c _ cur (by simpa using h)]
    exact ih

theorem splitlines_ne_nil (s : Str) (h : s ≠ []) : splitlines s ≠ [] := by
  rw [splitlines, if_neg (by simpa using h)]
  exact splitlinesGo_ne_nil s []

theorem dropWhile_head_not {α : Type} (p : α → Bool) (s : List α) (c : α) (rest : List α)
    (h : s.dropWhile p = c :: rest) : p c = false := by
  induction s with
  | nil => simp at h
  | cons a t ih =>
    by_cases hp : p a
    · rw [List.dropWhile_cons_of_pos hp] at h; exact ih h
    · rw [List.dropWhile_cons_of_neg hp] at h
      cases h
      simpa using hp

theorem intercalate_splitlines_len (n : Nat) :
    ∀ s : Str, s.length ≤ n → (∀ c ∈ s, isLineBreak c = true → c = '\n') →
      s.getLast? ≠ some '\n' →
      List.intercalate (lit "\n") (splitlines s) = s := by
  induction n with
  | zero =>
    intro s hl _ _
    have hs : s = [] := by cases s with | nil => rfl | cons a t => simp at hl
    subst hs
    simp [splitlines, List.intercalate]
  | succ n ih =>
    intro s hl honly hlast
    by_cases hnil : s = []
    · subst hnil; simp [splitlines, List.intercalate]
    · have hsplit := List.takeWhile_append_dropWhile (p := fun c => c ≠ '\n') (l := s)
      cases hd : s.dropWhile (fun c => c ≠ '\n') with
      | nil =>
        have hstw : s.takeWhile (fun c => c ≠ '\n') = s := by
          have h0 := hsplit
          rw [hd, List.append_nil] at h0
          exact h0
        have hnb : ∀ c ∈ s, isLineBreak c = false := by
          intro c hc
          by_cases hb : isLineBreak c = true
          · have hcn := honly c hc hb
            have hmem : c ∈ s.takeWhile (fun c => c ≠ '\n') := by rw [hstw]; exact hc
            have := List.mem_takeWhile_imp hmem
            simp [hcn] at this
          · simpa using hb
        rw [splitlines_nobreak s hnil hnb, intercalate_single]
      | cons c rest =>
        have hc : c = '\n' := by
          have := dropWhile_head_not (fun c => c ≠ '\n') s c rest hd
          simpa using this
        subst hc
        have hs : s.takeWhile (fun c => c ≠ '\n') ++ '\n' :: rest = s := by
          conv_rhs => rw [← hsplit]
          rw [hd]
        have htw : ∀ c ∈ s.takeWhile (fun c => c ≠ '\n'), isLineBreak c = false := by
          intro c hc
          have hne := List.mem_takeWhile_imp hc
          by_cases hb : isLineBreak c = true
          · have hcn := honly c (by rw [← hs]; exact List.mem_append_left _ hc) hb
            simp [hcn] at hne
          · simpa using hb
        have hrest_ne : rest ≠ [] := by
          intro h0
          subst h0
          apply hlast
          rw [← hs, List.getLast?_concat]
        have hlen : rest.length ≤ n := by
          have := congrArg List.length hs
          simp at this
          omega
        have hrest_only : ∀ c ∈ rest, isLineBreak c = true → c = '\n' := by
          intro c hc hb
          exact honly c (by rw [← hs]; simp [hc]) hb
        have hrest_last : rest.getLast? ≠ some '\n' := by
          intro h0
          apply hlast
          rw [← hs, List.getLast?_append_cons]
          rw [show ('\n' :: rest).getLast? = rest.getLast? from by
            cases rest with
            | nil => exact absurd rfl hrest_ne
            | cons y t => simp]
          exact h0
        rw [← hs, splitlines_append_nl _ rest htw]
        cases hsr : splitlines rest with
        | nil => exact absurd hsr (splitlines_ne_nil rest hrest_ne)
        | cons y t =>
          rw [intercalate_cons₂, ← hsr, ih rest hlen hrest_only hrest_last]
          simp [lit]

theorem intercalate_splitlines (s : Str)
    (honly : ∀ c ∈ s, isLineBreak c = true → c = '\n')
    (hlast : s.getLast? ≠ some '\n') :
    List.intercalate (lit "\n") (splitlines s) = s :=
  intercalate_splitlines_len s.length s (Nat.le_refl _) honly hlast

theorem length_le_utf8Len (s : Str) : s.length ≤ utf8Len s := by
  induction s with
  | nil => simp [utf8Len]
  | cons c t ih =>
    have := Char.utf8Size_pos c
    simp only [utf8Len, List.map_cons, List.sum_cons, List.length_cons]
    have ht : t.length ≤ utf8Len t := ih
    simp only [utf8Len] at ht
    omega

/-! ## C7 — Write/Read round trip -/

/-- C7 counterexample: in a fresh workspace, Write of the newline-terminated
UTF-8 content "a\n" (2 bytes, line terminator \n) followed by Read returns
"a", not "a\n": run_read joins splitlines output, which drops the trailing
newline, so the round trip claimed for every such content fails. -/
theorem c7_counterexample :
    run_read (run_write (wsWith []) testRoot (lit "f.txt") (lit "a\n")).2 testRoot
        (lit "f.txt") none = lit "a"
    ∧ utf8Len (lit "a\n") < 50000
    ∧ lit "a" ≠ lit "a\n" := by
  refine ⟨by decide, by decide, by decide⟩

/-- C7 (amended): for every UTF-8 content under 50,000 bytes whose only
line-boundary characters are "\n" and which does not end with "\n",
executing Write(p, c) and then Read(p) with no limit returns exactly c.
(The claim as frozen also covered newline-terminated content, where the
trailing newline is dropped.) -/
theorem c7_write_read_roundtrip (w : Workspace) (workdir : FsPath) (path c : Str)
    (A : FsPath) (hA : safe_path w.lt workdir path = .ok A)
    (honly : ∀ ch ∈ c, isLineBreak ch = true → ch = '\n')
    (hlast : c.getLast? ≠ some '\n')
    (hsize : utf8Len c < 50000) :
    run_read (run_write w workdir path c).2 workdir path none = c := by
  simp only [run_write, hA]
  have hfiles : (setFile w A c).files A = some c := by simp [setFile]
  have hlt : (setFile w A c).lt = w.lt := rfl
  simp only [run_read, hlt, hA, hfiles]
  rw [intercalate_splitlines c honly hlast]
  exact List.take_of_length_le (by have := length_le_utf8Len c; omega)

/-- C7 witness: the round trip at a concrete two-line content. -/
theorem c7_write_read_roundtrip_witness :
    run_read (run_write (wsWith []) testRoot (lit "g.txt") (lit "hi\nthere")).2 testRoot
        (lit "g.txt") none = lit "hi\nthere" :=
  c7_write_read_roundtrip (wsWith []) testRoot (lit "g.txt") (lit "hi\nthere")
    [lit "home", lit "ws", lit "g.txt"] (by rfl) (by decide) (by decide) (by decide)

/-! ## C9 — Read line limit and the more-lines marker -/

/-- C9 counterexample: Read with limit 0 on the two-line file "a\nb"
returns the whole file and no "... (2 more lines)" marker, although the
given limit 0 is less than the total line count 2: the source additionally
requires limit > 0 before truncating. -/
theorem c9_counterexample :
    run_read (wsWith [([lit "home", lit "ws", lit "f"], lit "a\nb")]) testRoot (lit "f")
        (some 0) = lit "a\nb"
    ∧ ((0 : Int) < ((splitlines (lit "a\nb")).length : Int))
    ∧ run_read (wsWith [([lit "home", lit "ws", lit "f"], lit "a\nb")]) testRoot (lit "f")
        (some 0) ≠ lit "... (2 more lines)" := by
  refine ⟨by decide, by decide, by decide⟩

/-- C9 (amended): for Read(path, limit) with 0 < limit (the source keeps
the whole file for limit ≤ 0), a limit below the total line count yields
the first limit lines followed by the marker line with N = total − limit;
a limit equal to the total line count yields the unlimited Read output with
no marker; and a limit equal to total − 1 (when positive) yields the marker
with N = 1. -/
theorem c9_read_limit (w : Workspace) (workdir : FsPath) (path : Str) (A : FsPath)
    (text : Str) (l : Int)
    (hA : safe_path w.lt workdir path = .ok A) (hf : w.files A = some text) :
    (0 < l → l < ((splitlines text).length : Int) →
      (List.intercalate (lit "\n") ((splitlines text).take l.toNat ++
        [lit "... (" ++ natStr ((splitlines text).length - l.toNat) ++
         lit " more lines)"])).length ≤ 50000 →
      run_read w workdir path (some l) =
        List.intercalate (lit "\n") ((splitlines text).take l.toNat ++
          [lit "... (" ++ natStr ((splitlines text).length - l.toNat) ++
           lit " more lines)"]))
    ∧ (l = ((splitlines text).length : Int) →
        run_read w workdir path (some l) = run_read w workdir path none)
    ∧ (l = ((splitlines text).length : Int) - 1 → 0 < l →
      (List.intercalate (lit "\n") ((splitlines text).take l.toNat ++
        [lit "... (1 more lines)"])).length ≤ 50000 →
      run_read w workdir path (some l) =
        List.intercalate (lit "\n") ((splitlines text).take l.toNat ++
          [lit "... (1 more lines)"])) := by
  refine ⟨?_, ?_, ?_⟩
  · intro h1 h2 hsize
    simp only [run_read, hA, hf]
    rw [if_pos ⟨h1, h2⟩]
    exact List.take_of_length_le hsize
  · intro heq
    simp only [run_read, hA, hf]
    rw [if_neg (by omega)]
  · intro heq h1 hsize
    have h2 : l < ((splitlines text).length : Int) := by omega
    have hN : (splitlines text).length - l.toNat = 1 := by omega
    simp only [run_read, hA, hf]
    rw [if_pos ⟨h1, h2⟩, hN]
    exact List.take_of_length_le (by simpa [hN] using hsize)

/-- C9 witness: the three boundary behaviours at a concrete three-line
file ("x\ny\nz"): limit 2 truncates with a marker, limit 3 does not, and
limit 2 = total − 1 shows the marker with N = 1. -/
theorem c9_read_limit_witness :
    run_read (wsWith [([lit "home", lit "ws", lit "f"], lit "x\ny\nz")]) testRoot (lit "f")
        (some 2) = lit "x\ny\n... (1 more lines)"
    ∧ run_read (wsWith [([lit "home", lit "ws", lit "f"], lit "x\ny\nz")]) testRoot (lit "f")
        (some 3) = run_read (wsWith [([lit "home", lit "ws", lit "f"], lit "x\ny\nz")])
          testRoot (lit "f") none := by
  constructor
  · have h := (c9_read_limit (wsWith [([lit "home", lit "ws", lit "f"], lit "x\ny\nz")])
      testRoot (lit "f") [lit "home", lit "ws", lit "f"] (lit "x\ny\nz") 2
      (by rfl) (by rfl)).2.2 (by decide) (by decide) (by decide)
    rw [h]
    decide
  · exact (c9_read_limit (wsWith [([lit "home", lit "ws", lit "f"], lit "x\ny\nz")])
      testRoot (lit "f") [lit "home", lit "ws", lit "f"] (lit "x\ny\nz") 3
      (by rfl) (by rfl)).2.1 (by decide)

/-! ## C6 — Edit replaces only the first occurrence -/

theorem firstOccurIdx_spec (s pat : Str) :
    ∀ i, firstOccurIdx s pat = some i →
      pat.isPrefixOf (s.drop i) = true ∧ ∀ j < i, pat.isPrefixOf (s.drop j) = false := by
  induction s with
  | nil =>
    intro i h
    rw [firstOccurIdx] at h
    by_cases he : pat.isEmpty
    · rw [if_pos he] at h
      cases h
      refine ⟨?_, by omega⟩
      have hpe : pat = [] := by simpa using he
      rw [hpe]
      rfl
    · rw [if_neg he] at h
      cases h
  | cons c rest ih =>
    intro i h
    rw [firstOccurIdx] at h
    by_cases hp : pat.isPrefixOf (c :: rest)
    · rw [if_pos hp] at h
      cases h
      exact ⟨by rw [List.drop_zero]; exact hp, by omega⟩
    · rw [if_neg hp] at h
      cases ho : firstOccurIdx rest pat with
      | none => rw [ho] at h; simp at h
      | some k =>
        rw [ho] at h
        simp at h
        obtain rfl : i = k + 1 := by omega
        obtain ⟨h1, h2⟩ := ih k ho
        refine ⟨by rw [List.drop_succ_cons]; exact h1, ?_⟩
        intro j hj
        cases j with
        | zero => rw [List.drop_zero]; exact Bool.eq_false_iff.mpr hp
        | succ j2 =>
          have := h2 j2 (by omega)
          rw [List.drop_succ_cons]
          exact this

theorem firstOccurIdx_none (s pat : Str) (h : firstOccurIdx s pat = none) :
    ∀ j, pat.isPrefixOf (s.drop j) = false := by
  induction s with
  | nil =>
    intro j
    rw [firstOccurIdx] at h
    by_cases he : pat.isEmpty
    · rw [if_pos he] at h; cases h
    · cases pat with
      | nil => simp at he
      | cons p ps => simp [List.isPrefixOf]
  | cons c rest ih =>
    intro j
    rw [firstOccurIdx] at h
    by_cases hp : pat.isPrefixOf (c :: rest)
    · rw [if_pos hp] at h; cases h
    · rw [if_neg hp] at h
      cases ho : firstOccurIdx rest pat with
      | none =>
        cases j with
        | zero => rw [List.drop_zero]; exact Bool.eq_false_iff.mpr hp
        | succ j2 => rw [List.drop_succ_cons]; exact ih ho j2
      | some k => rw [ho] at h; simp at h

/-- C6: with the file readable at the resolved path, Edit on content that
contains old_text replaces exactly the first occurrence (the replacement
position bears the match and every earlier position does not) and reports
"Edited <path>"; when old_text does not occur, Edit reports
"Error: Text not found in <path>" and leaves the workspace unchanged. -/
theorem c6_edit_first_occurrence (w : Workspace) (workdir : FsPath) (path old new : Str)
    (A : FsPath) (content : Str)
    (hA : safe_path w.lt workdir path = .ok A) (hf : w.files A = some content) :
    (∀ i, firstOccurIdx content old = some i →
      run_edit w workdir path old new =
        (lit "Edited " ++ path,
         setFile w A (content.take i ++ new ++ content.drop (i + old.length)))
      ∧ old.isPrefixOf (content.drop i) = true
      ∧ ∀ j < i, old.isPrefixOf (content.drop j) = false)
    ∧ (firstOccurIdx content old = none →
      run_edit w workdir path old new = (lit "Error: Text not found in " ++ path, w)) := by
  constructor
  · intro i hi
    refine ⟨?_, (firstOccurIdx_spec content old i hi).1, (firstOccurIdx_spec content old i hi).2⟩
    simp only [run_edit, hA, hf, replaceFirst, hi, Option.isNone_some, Bool.false_eq_true,
      if_false]
  · intro hn
    simp only [run_edit, hA, hf, hn, Option.isNone_none, if_true]

/-- C6 witness: the scenario of the specification, Edit("f.txt", "hello",
"bye") on a file containing "hello hello hello" leaves "bye hello hello"
and reports "Edited f.txt". -/
theorem c6_edit_first_occurrence_witness :
    run_edit (wsWith [([lit "home", lit "ws", lit "f.txt"], lit "hello hello hello")])
      testRoot (lit "f.txt") (lit "hello") (lit "bye")
    = (lit "Edited f.txt",
       setFile (wsWith [([lit "home", lit "ws", lit "f.txt"], lit "hello hello hello")])
         [lit "home", lit "ws", lit "f.txt"] (lit "bye hello hello")) := by
  have h := (c6_edit_first_occurrence
    (wsWith [([lit "home", lit "ws", lit "f.txt"], lit "hello hello hello")])
    testRoot (lit "f.txt") (lit "hello") (lit "bye")
    [lit "home", lit "ws", lit "f.txt"] (lit "hello hello hello")
    (by rfl) (by rfl)).1 0 (by decide)
  rw [h.1]
  simp only [Prod.mk.injEq]
  exact ⟨by decide, congrArg _ (by decide)⟩

/-! ## C1 — workspace path confinement -/

/-- C1: for every path the tools accept, the fully resolved path is equal
to or a descendant of the workspace root; and for every path whose
resolution leaves the root, Read, Write, Edit, Glob and Grep all return
the string "Error: Path escapes workspace: <path>" (which starts with
"Error" and contains "Path escapes workspace") and touch no file: the Read
and Grep results are fixed strings independent of every file's content,
and Write and Edit return the workspace unchanged. -/
theorem c1_path_confinement (w : Workspace) (workdir : FsPath) (path : Str) :
    (∀ A, safe_path w.lt workdir path = .ok A → workdir <+: A)
    ∧ (∀ e, safe_path w.lt workdir path = .error e →
        e = lit "Path escapes workspace: " ++ path
        ∧ run_read w workdir path none = lit "Error: Path escapes workspace: " ++ path
        ∧ lit "Error" <+: run_read w workdir path none
        ∧ (lit "Path escapes workspace").IsInfix (run_read w workdir path none)
        ∧ (∀ c, run_write w workdir path c = (lit "Error: Path escapes workspace: " ++ path, w))
        ∧ (∀ old new, run_edit w workdir path old new =
            (lit "Error: Path escapes workspace: " ++ path, w))
        ∧ (∀ pat, run_glob w workdir pat (some path) =
            lit "Error: Path escapes workspace: " ++ path)
        ∧ (∀ rx ptxt mode g n hl off, run_grep w workdir (some rx) ptxt (some path) mode g n hl off
            = lit "Error: Path escapes workspace: " ++ path)) := by
  constructor
  · intro A hA
    rw [safe_path] at hA
    by_cases hpre : workdir.isPrefixOf (resolvePath w.lt (pathJoin workdir path))
    · rw [if_pos hpre] at hA
      cases hA
      exact List.isPrefixOf_iff_prefix.mp hpre
    · rw [if_neg hpre] at hA
      cases hA
  · intro e he
    have hmsg : e = lit "Path escapes workspace: " ++ path := by
      rw [safe_path] at he
      by_cases hpre : workdir.isPrefixOf (resolvePath w.lt (pathJoin workdir path))
      · rw [if_pos hpre] at he; cases he
      · rw [if_neg hpre] at he; cases he; rfl
    subst hmsg
    have hread : run_read w workdir path none = lit "Error: Path escapes workspace: " ++ path := by
      simp only [run_read, he]
      rfl
    refine ⟨rfl, hread, ?_, ?_, ?_, ?_, ?_, ?_⟩
    · rw [hread]
      exact ⟨lit ": Path escapes workspace: " ++ path, rfl⟩
    · rw [hread]
      exact ⟨lit "Error: ", lit ": " ++ path, rfl⟩
    · intro c
      simp only [run_write, he]
      rfl
    · intro old new
      simp only [run_edit, he]
      rfl
    · intro pat
      simp only [run_glob, Option.getD_some, he]
      rfl
    · intro rx ptxt mode g n hl off
      simp only [run_grep, Option.getD_some, he]
      rfl

/-- C1 witness: in a fresh workspace rooted at /home/ws, the relative path
"f.txt" resolves inside the root, while Read("../etc/passwd") is rejected
with the escape error whatever the file table holds. -/
theorem c1_path_confinement_witness :
    testRoot <+: [lit "home", lit "ws", lit "f.txt"]
    ∧ run_read (wsWith []) testRoot (lit "../etc/passwd") none =
        lit "Error: Path escapes workspace: ../etc/passwd" := by
  constructor
  · exact (c1_path_confinement (wsWith []) testRoot (lit "f.txt")).1
      [lit "home", lit "ws", lit "f.txt"] (by rfl)
  · have h := ((c1_path_confinement (wsWith []) testRoot (lit "../etc/passwd")).2
      (lit "Path escapes workspace: " ++ lit "../etc/passwd") (by rfl)).2.1
    rw [h]
    decide

/-! ## C10 — TaskUpdate without a task manager in context -/

/-- C10: dispatching TaskUpdate in a context carrying no task manager — the
context every subagent tool call runs under, while even a Code subagent's
tool list does contain TaskUpdate — returns exactly the unavailability
error, leaves the workspace unchanged and yields no task manager, so no
task list (in particular the parent's) is read or modified. -/
theorem c10_taskupdate_unavailable (ctx parent : ExecCtx) (w : Workspace) (args : ToolArgs)
    (h : ctx.task_manager = none) :
    execute_tool ctx w "TaskUpdate" args =
      (lit "Error: TaskUpdate not available in this context", w, none)
    ∧ (subagentCtx parent).task_manager = none
    ∧ ToolParam.mk "TaskUpdate" ∈ get_tools_for_agent "Code" := by
  refine ⟨?_, rfl, by decide⟩
  simp [execute_tool, h]

/-- C10 witness: the dispatch at the concrete subagent context. -/
theorem c10_taskupdate_unavailable_witness :
    execute_tool (subagentCtx testCtx) (wsWith []) "TaskUpdate" {} =
      (lit "Error: TaskUpdate not available in this context", wsWith [], none) :=
  (c10_taskupdate_unavailable (subagentCtx testCtx) testCtx (wsWith []) {} rfl).1

/-! ## C5 — subagent isolation and capability limits -/

/-- C5: a subagent spawned for a known agent type makes its first model
call with a one-message conversation holding exactly the caller's prompt
as a user message; Explore and Plan are offered only the Bash and Read
tools; no agent type's tool list contains the Task tool; and the execution
context of every subagent tool call carries no spawn_subagent callback, so
a nested Task dispatch returns an error instead of recursing — recursion
depth never exceeds one. -/
theorem c5_subagent_isolation (parent : ExecCtx) (w : Workspace) (r : ModelResponse)
    (oracle : List ModelResponse) (t : String) (prompt : Str) (spec : AgentSpec)
    (ht : AGENTS t = some spec) :
    (spawn_subagent parent w (r :: oracle) t prompt).2.1.head? =
      some [⟨"user", [CBlock.text prompt]⟩]
    ∧ (get_tools_for_agent "Explore").map ToolParam.name = ["Bash", "Read"]
    ∧ (get_tools_for_agent "Plan").map ToolParam.name = ["Bash", "Read"]
    ∧ (∀ ty : String, ToolParam.mk "Task" ∉ get_tools_for_agent ty)
    ∧ (subagentCtx parent).spawn_subagent = none
    ∧ (∀ args, execute_tool (subagentCtx parent) w "Task" args =
        (lit "Error: Task tool not available in this context", w, none)) := by
  refine ⟨?_, by decide, by decide, ?_, rfl, ?_⟩
  · simp only [spawn_subagent, ht]
    rw [subagentLoopGo]
    split
    · rfl
    · rfl
  · intro ty
    by_cases h1 : ty = "Explore"
    · subst h1; decide
    · by_cases h2 : ty = "Plan"
      · subst h2; decide
      · by_cases h3 : ty = "Code"
        · subst h3; decide
        · have : AGENTS ty = none := by simp [AGENTS, h1, h2, h3]
          simp only [get_tools_for_agent, this]
          decide
  · intro args
    simp [execute_tool, subagentCtx]

/-- C5 witness: the Explore subagent of the specification scenario, with a
one-response script, makes its first model call on exactly the isolated
prompt conversation. -/
theorem c5_subagent_isolation_witness :
    (spawn_subagent testCtx (wsWith []) [⟨[CBlock.text (lit "done")], "end_turn"⟩]
        "Explore" (lit "list .py files")).2.1.head? =
      some [⟨"user", [CBlock.text (lit "list .py files")]⟩] :=
  (c5_subagent_isolation testCtx (wsWith []) ⟨[CBlock.text (lit "done")], "end_turn"⟩ []
    "Explore" (lit "list .py files")
    ⟨"Read-only agent for exploring code, finding files, searching",
     .list ["Bash", "Read"],
     "You are an exploration agent. Search and analyze, but never modify files. Return a concise summary."⟩
    (by rfl)).1

/-! ## C4 — TaskUpdate validation -/

theorem validateGo_ok (tasks : List RawTask) : ∀ i vs c, validateGo tasks i = .ok (vs, c) →
    vs = tasks.map dictToTask
    ∧ c = (tasks.filter (fun t => (dictToTask t).status = lit "in_progress")).length
    ∧ ∀ t ∈ tasks, (dictToTask t).content ≠ [] ∧ (dictToTask t).active_form ≠ []
        ∧ ((dictToTask t).status = lit "pending" ∨ (dictToTask t).status = lit "in_progress"
           ∨ (dictToTask t).status = lit "completed") := by
  induction tasks with
  | nil =>
    intro i vs c h
    rw [validateGo] at h
    cases h
    simp
  | cons t rest ih =>
    intro i vs c h
    rw [validateGo] at h
    split at h
    · cases h
    · split at h
      · cases h
      · split at h
        · cases h
        · rename_i hcont hstat hact
          cases ho : validateGo rest (i + 1) with
          | error e => rw [ho] at h; cases h
          | ok p =>
            obtain ⟨ts, cc⟩ := p
            rw [ho] at h
            cases h
            obtain ⟨hv, hc, hgood⟩ := ih (i + 1) ts cc ho
            refine ⟨by simp [hv], ?_, ?_⟩
            · by_cases hs : (dictToTask t).status = lit "in_progress" <;>
                simp [hs, hc, List.filter_cons] <;> omega
            · intro u hu
              rcases List.mem_cons.mp hu with rfl | hu2
              · exact ⟨hcont, hact, by tauto⟩
              · exact hgood u hu2

theorem validateGo_all_good (tasks : List RawTask) : ∀ i,
    (∀ t ∈ tasks, (dictToTask t).content ≠ [] ∧ (dictToTask t).active_form ≠ []
        ∧ ((dictToTask t).status = lit "pending" ∨ (dictToTask t).status = lit "in_progress"
           ∨ (dictToTask t).status = lit "completed")) →
    validateGo tasks i = .ok (tasks.map dictToTask,
      (tasks.filter (fun t => (dictToTask t).status = lit "in_progress")).length) := by
  induction tasks with
  | nil => intro i _; rw [validateGo]; simp
  | cons t rest ih =>
    intro i hgood
    obtain ⟨hcont, hact, hstat⟩ := hgood t (by simp)
    rw [validateGo]
    rw [if_neg hcont, if_neg (by tauto), if_neg hact]
    rw [ih (i + 1) (fun u hu => hgood u (by simp [hu]))]
    by_cases hs : (dictToTask t).status = lit "in_progress" <;>
      simp [hs, List.filter_cons] <;> omega

/-- C4: TaskUpdate rejects every task list with more than 20 entries, or
more than one in_progress entry, or any entry with empty (stripped)
content, empty active_form, or a status outside pending/in_progress/
completed — and on every such rejection the stored manager is unchanged
and the result is an Error string.  When all entries are individually
valid and the list is within the size bound, a list with more than one
in_progress entry is rejected with exactly the "Only one task can be in
progress at a time" error. -/
theorem c4_taskupdate_validation (tm : TaskManager) (tasks : List RawTask) :
    ((tasks.length > 20
      ∨ (tasks.filter (fun t => (dictToTask t).status = lit "in_progress")).length > 1
      ∨ ∃ t ∈ tasks, (dictToTask t).content = [] ∨ (dictToTask t).active_form = []
          ∨ ¬((dictToTask t).status = lit "pending" ∨ (dictToTask t).status = lit "in_progress"
              ∨ (dictToTask t).status = lit "completed")) →
      (run_task_update tm tasks).1 = tm
      ∧ lit "Error: " <+: (run_task_update tm tasks).2)
    ∧ ((∀ t ∈ tasks, (dictToTask t).content ≠ [] ∧ (dictToTask t).active_form ≠ []
          ∧ ((dictToTask t).status = lit "pending" ∨ (dictToTask t).status = lit "in_progress"
             ∨ (dictToTask t).status = lit "completed")) →
        tasks.length ≤ 20 →
        (tasks.filter (fun t => (dictToTask t).status = lit "in_progress")).length > 1 →
        run_task_update tm tasks =
          (tm, lit "Error: Only one task can be in progress at a time")) := by
  constructor
  · intro hbad
    cases hu : tm.update tasks with
    | error e =>
      rw [run_task_update, hu]
      exact ⟨rfl, e, rfl⟩
    | ok p =>
      exfalso
      rw [TaskManager.update] at hu
      cases hv : validateGo tasks 0 with
      | error e => rw [hv] at hu; cases hu
      | ok q =>
        obtain ⟨vs, c⟩ := q
        rw [hv] at hu
        have hu2 : (if vs.length > MAX_TASKS then
              (Except.error (lit "Maximum " ++ natStr MAX_TASKS ++ lit " tasks allowed") :
                Except Str (TaskManager × Str))
            else if c > 1 then
              Except.error (lit "Only one task can be in progress at a time")
            else
              Except.ok ({ tm with tasks := vs },
                TaskManager.render { tm with tasks := vs })) = Except.ok p := hu
        obtain ⟨hvs, hc, hgood⟩ := validateGo_ok tasks 0 vs c hv
        by_cases h20 : vs.length > MAX_TASKS
        · rw [if_pos h20] at hu2; cases hu2
        · rw [if_neg h20] at hu2
          by_cases hc1 : c > 1
          · rw [if_pos hc1] at hu2; cases hu2
          · rcases hbad with hlen | hcnt | ⟨t, hmem, hbadt⟩
            · apply h20
              rw [hvs, List.length_map]
              simpa [MAX_TASKS] using hlen
            · apply hc1
              omega
            · rcases hbadt with hb | hb | hb
              · exact absurd hb (hgood t hmem).1
              · exact absurd hb (hgood t hmem).2.1
              · exact absurd (hgood t hmem).2.2 hb
  · intro hgood h20 hcnt
    have hv := validateGo_all_good tasks 0 hgood
    have hres : tm.update tasks =
        .error (lit "Only one task can be in progress at a time") := by
      rw [TaskManager.update, hv]
      show (if (List.map dictToTask tasks).length > MAX_TASKS then
          (Except.error (lit "Maximum " ++ natStr MAX_TASKS ++ lit " tasks allowed") :
            Except Str (TaskManager × Str))
        else if (tasks.filter (fun t => (dictToTask t).status = lit "in_progress")).length > 1 then
          Except.error (lit "Only one task can be in progress at a time")
        else
          Except.ok ({ tm with tasks := List.map dictToTask tasks },
            TaskManager.render { tm with tasks := List.map dictToTask tasks })) = _
      rw [if_neg (by rw [List.length_map]; simpa [MAX_TASKS] using h20)]
      rw [if_pos hcnt]
    rw [run_task_update, hres]
    rfl

/-- C4 witness: the scenario of the specification, two in_progress tasks,
is rejected with the "Only one task can be in progress" error and the
previously stored list survives. -/
theorem c4_taskupdate_validation_witness :
    run_task_update ⟨[⟨lit "old", lit "pending", lit "x"⟩], 3⟩
      [⟨some (lit "A"), some (lit "in_progress"), some (lit "Doing A")⟩,
       ⟨some (lit "B"), some (lit "in_progress"), some (lit "Doing B")⟩] =
    (⟨[⟨lit "old", lit "pending", lit "x"⟩], 3⟩,
     lit "Error: Only one task can be in progress at a time") :=
  (c4_taskupdate_validation ⟨[⟨lit "old", lit "pending", lit "x"⟩], 3⟩
    [⟨some (lit "A"), some (lit "in_progress"), some (lit "Doing A")⟩,
     ⟨some (lit "B"), some (lit "in_progress"), some (lit "Doing B")⟩]).2
    (by decide) (by decide) (by decide)

/-! ## C3 — nag counter policy, and C2 — tool-result pairing -/

theorem TaskManager.update_rounds (tm : TaskManager) (tasks : List RawTask)
    (tm2 : TaskManager) (r : Str) (h : tm.update tasks = .ok (tm2, r)) :
    tm2.rounds_without_task = tm.rounds_without_task := by
  rw [TaskManager.update] at h
  cases hv : validateGo tasks 0 with
  | error e => rw [hv] at h; cases h
  | ok q =>
    obtain ⟨vs, c⟩ := q
    rw [hv] at h
    have h2 : (if vs.length > MAX_TASKS then
          (Except.error (lit "Maximum " ++ natStr MAX_TASKS ++ lit " tasks allowed") :
            Except Str (TaskManager × Str))
        else if c > 1 then
          Except.error (lit "Only one task can be in progress at a time")
        else
          Except.ok ({ tm with tasks := vs },
            TaskManager.render { tm with tasks := vs })) = Except.ok (tm2, r) := h
    by_cases h20 : vs.length > MAX_TASKS
    · rw [if_pos h20] at h2; cases h2
    · rw [if_neg h20] at h2
      by_cases hc1 : c > 1
      · rw [if_pos hc1] at h2; cases h2
      · rw [if_neg hc1] at h2
        cases h2
        rfl

theorem run_task_update_rounds (tm : TaskManager) (tasks : List RawTask) :
    (run_task_update tm tasks).1.rounds_without_task = tm.rounds_without_task := by
  rw [run_task_update]
  cases hu : tm.update tasks with
  | error e => rfl
  | ok p =>
    obtain ⟨tm2, r⟩ := p
    exact TaskManager.update_rounds tm tasks tm2 r hu

theorem execute_tool_rounds (ctx : ExecCtx) (w : Workspace) (name : String)
    (args : ToolArgs) (tm : TaskManager) (h : ctx.task_manager = some tm) :
    (((execute_tool ctx w name args).2.2).getD tm).rounds_without_task =
      tm.rounds_without_task := by
  by_cases hn : name = "TaskUpdate"
  · subst hn
    simp only [execute_tool, h, Option.getD_some]
    exact run_task_update_rounds tm _
  · have hkeep : (execute_tool ctx w name args).2.2 = ctx.task_manager := by
      unfold execute_tool
      split
      any_goals rfl
      · exact absurd rfl hn
      · cases ctx.spawn_subagent <;> rfl
    rw [hkeep, h, Option.getD_some]

theorem execCallsGo_rounds (base : ExecCtx) (calls : List (Str × String × ToolArgs)) :
    ∀ w tm, (execCallsGo (fun tm => { base with task_manager := some tm }) calls w tm).2.2.rounds_without_task
      = tm.rounds_without_task := by
  induction calls with
  | nil => intro w tm; rfl
  | cons c rest ih =>
    intro w tm
    obtain ⟨id, nm, input⟩ := c
    rw [execCallsGo]
    rcases hE : execute_tool { base with task_manager := some tm } w nm input with ⟨out, w2, tmOpt⟩
    have hr := execute_tool_rounds { base with task_manager := some tm } w nm input tm rfl
    rw [hE] at hr
    simp only at hr ⊢
    rw [ih w2 (tmOpt.getD tm), hr]

theorem execCallsGo_results (base : ExecCtx) (calls : List (Str × String × ToolArgs)) :
    ∀ w tm, ∃ outs : List Str, outs.length = calls.length ∧
      (execCallsGo (fun tm => { base with task_manager := some tm }) calls w tm).1 =
        List.zipWith (fun c out => CBlock.toolResult c.1 out) calls outs := by
  induction calls with
  | nil => intro w tm; exact ⟨[], rfl, rfl⟩
  | cons c rest ih =>
    intro w tm
    obtain ⟨id, nm, input⟩ := c
    rw [execCallsGo]
    rcases hE : execute_tool { base with task_manager := some tm } w nm input with ⟨out, w2, tmOpt⟩
    obtain ⟨outs, hlen, hres⟩ := ih w2 (tmOpt.getD tm)
    refine ⟨out :: outs, by simp [hlen], ?_⟩
    simp only [List.zipWith]
    rw [← hres]

theorem ite_prepend {α : Type} (P : Prop) [Decidable P] (x : α) (r : List α) :
    (if P then x :: r else r) = (if P then [x] else []) ++ r := by
  by_cases h : P
  · simp [h]
  · simp [h]

theorem zipWith_toolResult_ids (calls : List (Str × String × ToolArgs)) :
    ∀ outs : List Str, outs.length = calls.length →
      (List.zipWith (fun c out => CBlock.toolResult c.1 out) calls outs).filterMap
          (fun b => match b with | CBlock.toolResult id _ => some id | _ => none)
        = calls.map (fun c => c.1) := by
  induction calls with
  | nil => intro outs _; simp
  | cons c rest ih =>
    intro outs h
    cases outs with
    | nil => simp at h
    | cons o os =>
      simp only [List.zipWith, List.map_cons, List.filterMap_cons]
      rw [ih os (by simpa using h)]

/-- C3: after an assistant turn that invoked at least one tool, the nag
counter is reset to 0 when some invoked tool was TaskUpdate and is the
previous value plus one otherwise; and whenever the updated counter
exceeds 10, the user message appended by the loop carries the nag reminder
text block as its first block. -/
theorem c3_nag_policy (base : ExecCtx) (st : AgentState) (resp : ModelResponse)
    (hstop : resp.stop_reason = "tool_use") (hcalls : toolUses resp.content ≠ []) :
    ((agentStep base st resp).1.tm.rounds_without_task =
      if (toolUses resp.content).any (fun c => c.2.1 = "TaskUpdate") then 0
      else st.tm.rounds_without_task + 1)
    ∧ ((agentStep base st resp).1.tm.rounds_without_task > 10 →
        ((agentStep base st resp).1.messages.getLast?).map Message.role = some "user"
        ∧ ((agentStep base st resp).1.messages.getLast?).map (fun m => m.content.head?) =
            some (some (CBlock.text NAG_REMINDER))) := by
  have hif : ¬ (resp.stop_reason ≠ "tool_use") := by simp [hstop]
  have hrounds : (agentStep base st resp).1.tm.rounds_without_task =
      if (toolUses resp.content).any (fun c => c.2.1 = "TaskUpdate") then 0
      else st.tm.rounds_without_task + 1 := by
    simp only [agentStep, if_neg hif]
    by_cases hused : (toolUses resp.content).any (fun c => c.2.1 = "TaskUpdate")
    · simp only [hused, if_true, TaskManager.reset]
    · simp only [hused, if_false, TaskManager.increment]
      rw [execCallsGo_rounds]
      simp
  refine ⟨hrounds, ?_⟩
  intro hgt
  have hnag : ((agentStep base st resp).1.tm).too_long_without_task = true := by
    simp only [TaskManager.too_long_without_task]
    simpa using hgt
  have hmsg : (agentStep base st resp).1.messages =
      st.messages ++ [⟨"assistant", resp.content⟩,
        ⟨"user", CBlock.text NAG_REMINDER ::
          (execCallsGo (fun tm => { base with task_manager := some tm })
            (toolUses resp.content) st.w st.tm).1⟩] := by
    simp only [agentStep, if_neg hif] at hnag ⊢
    rw [if_pos hnag]
  rw [hmsg]
  rw [show st.messages ++ [(⟨"assistant", resp.content⟩ : Message),
        ⟨"user", CBlock.text NAG_REMINDER ::
          (execCallsGo (fun tm => { base with task_manager := some tm })
            (toolUses resp.content) st.w st.tm).1⟩]
      = (st.messages ++ [⟨"assistant", resp.content⟩]) ++
        [⟨"user", CBlock.text NAG_REMINDER ::
          (execCallsGo (fun tm => { base with task_manager := some tm })
            (toolUses resp.content) st.w st.tm).1⟩] from by simp]
  rw [List.getLast?_concat]
  exact ⟨rfl, rfl⟩

/-- C3 witness: eleven Bash-only turns from a fresh counter leave the
counter at 11 and the twelfth turn's user message starts with the nag
reminder; a TaskUpdate turn resets the counter to 0. -/
theorem c3_nag_policy_witness :
    (agentStep testCtx ⟨[], ⟨[], 10⟩, wsWith []⟩
        ⟨[CBlock.toolUse (lit "t1") "Bash" {}], "tool_use"⟩).1.tm.rounds_without_task = 11
    ∧ ((agentStep testCtx ⟨[], ⟨[], 10⟩, wsWith []⟩
        ⟨[CBlock.toolUse (lit "t1") "Bash" {}], "tool_use"⟩).1.messages.getLast?).map
          (fun m => m.content.head?) = some (some (CBlock.text NAG_REMINDER))
    ∧ (agentStep testCtx ⟨[], ⟨[], 10⟩, wsWith []⟩
        ⟨[CBlock.toolUse (lit "t2") "TaskUpdate" {}], "tool_use"⟩).1.tm.rounds_without_task = 0 := by
  refine ⟨?_, ?_, ?_⟩
  · rw [(c3_nag_policy testCtx ⟨[], ⟨[], 10⟩, wsWith []⟩
      ⟨[CBlock.toolUse (lit "t1") "Bash" {}], "tool_use"⟩ rfl (by decide)).1]
    decide
  · exact ((c3_nag_policy testCtx ⟨[], ⟨[], 10⟩, wsWith []⟩
      ⟨[CBlock.toolUse (lit "t1") "Bash" {}], "tool_use"⟩ rfl (by decide)).2 (by decide)).2
  · rw [(c3_nag_policy testCtx ⟨[], ⟨[], 10⟩, wsWith []⟩
      ⟨[CBlock.toolUse (lit "t2") "TaskUpdate" {}], "tool_use"⟩ rfl (by decide)).1]
    decide

/-- C2 counterexample: in a turn whose nag reminder fires, the user
message built by the loop is [reminder text, tool results...]: the text
block comes first, so the claim that all tool-result blocks precede any
trailing reminder text block fails at this concrete turn. -/
theorem c2_counterexample :
    (((agentStep testCtx ⟨[], ⟨[], 10⟩, wsWith []⟩
        ⟨[CBlock.toolUse (lit "t1") "Bash" {}], "tool_use"⟩).1.messages.getLast?).map
          Message.content).map toolResultsPrecedeTextBlocks = some false
    ∧ ((agentStep testCtx ⟨[], ⟨[], 10⟩, wsWith []⟩
        ⟨[CBlock.toolUse (lit "t1") "Bash" {}], "tool_use"⟩).1.messages.getLast?).map
          Message.content =
        some [CBlock.text NAG_REMINDER, CBlock.toolResult (lit "t1") (lit "ok")] := by
  exact ⟨by decide, by decide⟩

/-- C2 (amended): after every tool-using assistant turn, the immediately
following user message contains exactly one tool-result block per tool-use
block, carrying the originating ids in the same order, before the next
model call; the nag reminder text block, when present, is inserted at
position 0 and so precedes all tool-result blocks (rather than trailing
them as the claim stated). -/
theorem c2_tool_result_pairing (base : ExecCtx) (st : AgentState) (resp : ModelResponse)
    (hstop : resp.stop_reason = "tool_use") :
    ∃ outs : List Str,
      outs.length = (toolUses resp.content).length
      ∧ (agentStep base st resp).1.messages =
          st.messages ++ [⟨"assistant", resp.content⟩,
            ⟨"user", (if (agentStep base st resp).1.tm.too_long_without_task then
                [CBlock.text NAG_REMINDER] else []) ++
              List.zipWith (fun c out => CBlock.toolResult c.1 out) (toolUses resp.content) outs⟩]
      ∧ (List.zipWith (fun c out => CBlock.toolResult c.1 out) (toolUses resp.content) outs).filterMap
            (fun b => match b with | CBlock.toolResult id _ => some id | _ => none)
          = (toolUses resp.content).map (fun c => c.1) := by
  have hif : ¬ (resp.stop_reason ≠ "tool_use") := by simp [hstop]
  obtain ⟨outs, hlen, hres⟩ := execCallsGo_results base (toolUses resp.content) st.w st.tm
  refine ⟨outs, hlen, ?_, zipWith_toolResult_ids (toolUses resp.content) outs hlen⟩
  simp only [agentStep, if_neg hif]
  rw [← hres, ite_prepend]

/-- C2 witness: the pairing at a concrete two-tool turn. -/
theorem c2_tool_result_pairing_witness :
    ∃ outs : List Str,
      outs.length = (toolUses [CBlock.toolUse (lit "a") "Bash" {},
        CBlock.toolUse (lit "b") "Glob" {}]).length
      ∧ (agentStep testCtx ⟨[], ⟨[], 0⟩, wsWith []⟩
          ⟨[CBlock.toolUse (lit "a") "Bash" {}, CBlock.toolUse (lit "b") "Glob" {}],
           "tool_use"⟩).1.messages =
          [] ++ [⟨"assistant", [CBlock.toolUse (lit "a") "Bash" {},
              CBlock.toolUse (lit "b") "Glob" {}]⟩,
            ⟨"user", (if (agentStep testCtx ⟨[], ⟨[], 0⟩, wsWith []⟩
                ⟨[CBlock.toolUse (lit "a") "Bash" {}, CBlock.toolUse (lit "b") "Glob" {}],
                 "tool_use"⟩).1.tm.too_long_without_task then
                [CBlock.text NAG_REMINDER] else []) ++
              List.zipWith (fun c out => CBlock.toolResult c.1 out)
                (toolUses [CBlock.toolUse (lit "a") "Bash" {},
                  CBlock.toolUse (lit "b") "Glob" {}]) outs⟩]
      ∧ (List.zipWith (fun c out => CBlock.toolResult c.1 out)
            (toolUses [CBlock.toolUse (lit "a") "Bash" {},
              CBlock.toolUse (lit "b") "Glob" {}]) outs).filterMap
            (fun b => match b with | CBlock.toolResult id _ => some id | _ => none)
          = (toolUses [CBlock.toolUse (lit "a") "Bash" {},
              CBlock.toolUse (lit "b") "Glob" {}]).map (fun c => c.1) :=
  c2_tool_result_pairing testCtx ⟨[], ⟨[], 0⟩, wsWith []⟩
    ⟨[CBlock.toolUse (lit "a") "Bash" {}, CBlock.toolUse (lit "b") "Glob" {}], "tool_use"⟩ rfl

/-! ## C8 — Grep offset and head_limit slicing, early exit -/

theorem grepFoldl_content (matcher : Str → Bool) (n : Bool) (f : Str)
    (lines : List (Nat × Str)) :
    ∀ st : GrepState,
      (lines.foldl (fun acc p =>
          if matcher p.2 then grepLine "content" n f (p.1 + 1) p.2 acc else acc) st).content
      = st.content ++ (lines.filter (fun p => matcher p.2)).map
          (fun p => if n then f ++ ':' :: natStr (p.1 + 1) ++ ':' :: p.2 else f ++ ':' :: p.2) := by
  induction lines with
  | nil => intro st; simp
  | cons p rest ih =>
    intro st
    simp only [List.foldl_cons, List.filter_cons]
    by_cases hm : matcher p.2
    · simp only [hm, if_true]
      rw [ih]
      simp [grepLine]
    · simp only [hm, if_false]
      rw [ih]
      simp

theorem grepFile_content (matcher : Str → Bool) (n : Bool) (f text : Str) (st : GrepState) :
    (grepFile matcher "content" n f text st).content
      = st.content ++ ((splitlines text).enum.filter (fun p => matcher p.2)).map
          (fun p => if n then f ++ ':' :: natStr (p.1 + 1) ++ ':' :: p.2 else f ++ ':' :: p.2) := by
  rw [grepFile, grepFoldl_content]

theorem grepScanGo_nolimit_cons_none (w : Workspace) (matcher : Str → Bool) (n : Bool)
    (f : FsPath) (rest : List FsPath) (st : GrepState) (v : Nat)
    (hf : w.files f = none) :
    grepScanGo w matcher "content" n 0 0 (f :: rest) st v =
      grepScanGo w matcher "content" n 0 0 rest st (v + 1) := by
  rw [grepScanGo, hf]

theorem grepScanGo_nolimit_cons_some (w : Workspace) (matcher : Str → Bool) (n : Bool)
    (f : FsPath) (rest : List FsPath) (st : GrepState) (v : Nat) (text : Str)
    (hf : w.files f = some text) :
    grepScanGo w matcher "content" n 0 0 (f :: rest) st v =
      grepScanGo w matcher "content" n 0 0 rest
        (grepFile matcher "content" n (pathStr f) text st) (v + 1) := by
  rw [grepScanGo, hf]
  simp

theorem grepScanGo_nolimit_append (w : Workspace) (matcher : Str → Bool) (n : Bool)
    (a : List FsPath) :
    ∀ (b : List FsPath) (st : GrepState) (v : Nat),
      grepScanGo w matcher "content" n 0 0 (a ++ b) st v =
        grepScanGo w matcher "content" n 0 0 b
          (grepScanGo w matcher "content" n 0 0 a st v).1
          (grepScanGo w matcher "content" n 0 0 a st v).2 := by
  induction a with
  | nil => intro b st v; rfl
  | cons f rest ih =>
    intro b st v
    cases hf : w.files f with
    | none =>
      rw [List.cons_append, grepScanGo_nolimit_cons_none w matcher n f (rest ++ b) st v hf,
        grepScanGo_nolimit_cons_none w matcher n f rest st v hf, ih]
    | some text =>
      rw [List.cons_append, grepScanGo_nolimit_cons_some w matcher n f (rest ++ b) st v text hf,
        grepScanGo_nolimit_cons_some w matcher n f rest st v text hf, ih]

theorem grepScanGo_nolimit_content (w : Workspace) (matcher : Str → Bool) (n : Bool)
    (files : List FsPath) :
    ∀ (st : GrepState) (v v2 : Nat),
      (grepScanGo w matcher "content" n 0 0 files st v).1.content =
        st.content ++
          (grepScanGo w matcher "content" n 0 0 files ⟨[], [], []⟩ v2).1.content := by
  induction files with
  | nil => intro st v v2; simp [grepScanGo]
  | cons f rest ih =>
    intro st v v2
    cases hf : w.files f with
    | none =>
      rw [grepScanGo_nolimit_cons_none w matcher n f rest st v hf,
        grepScanGo_nolimit_cons_none w matcher n f rest ⟨[], [], []⟩ v2 hf]
      exact ih st (v + 1) (v2 + 1)
    | some text =>
      rw [grepScanGo_nolimit_cons_some w matcher n f rest st v text hf,
        grepScanGo_nolimit_cons_some w matcher n f rest ⟨[], [], []⟩ v2 text hf]
      rw [ih (grepFile matcher "content" n (pathStr f) text st) (v + 1) (v2 + 1)]
      rw [ih (grepFile matcher "content" n (pathStr f) text ⟨[], [], []⟩) (v2 + 1) (v2 + 1)]
      rw [grepFile_content, grepFile_content]
      simp

theorem grepScanGo_cons_none (w : Workspace) (matcher : Str → Bool) (n : Bool)
    (hl off : Int) (f : FsPath) (rest : List FsPath) (st : GrepState) (v : Nat)
    (hf : w.files f = none) :
    grepScanGo w matcher "content" n hl off (f :: rest) st v =
      grepScanGo w matcher "content" n hl off rest st (v + 1) := by
  rw [grepScanGo, hf]

theorem grepScanGo_cons_some (w : Workspace) (matcher : Str → Bool) (n : Bool)
    (hl off : Int) (f : FsPath) (rest : List FsPath) (st : GrepState) (v : Nat)
    (text : Str) (hf : w.files f = some text) :
    grepScanGo w matcher "content" n hl off (f :: rest) st v =
      (if ("content" : String) = "content" ∧ hl > 0 ∧
          (((grepFile matcher "content" n (pathStr f) text st).content.length : Int) ≥ hl + off)
       then (grepFile matcher "content" n (pathStr f) text st, v + 1)
       else grepScanGo w matcher "content" n hl off rest
          (grepFile matcher "content" n (pathStr f) text st) (v + 1)) := by
  rw [grepScanGo, hf]

theorem grepScanGo_limit (w : Workspace) (matcher : Str → Bool) (n : Bool) (hl off : Int)
    (hhl : hl > 0) (files : List FsPath) :
    ∀ (st : GrepState) (v : Nat),
      ((st.content.length : Int) < hl + off) →
      ∃ used, used ≤ files.length
        ∧ grepScanGo w matcher "content" n hl off files st v =
            ((grepScanGo w matcher "content" n 0 0 (files.take used) st v).1, v + used)
        ∧ (used = files.length
           ∨ (((grepScanGo w matcher "content" n 0 0 (files.take used) st v).1.content.length : Int)
                ≥ hl + off))
        ∧ ∀ j < used,
            (((grepScanGo w matcher "content" n 0 0 (files.take j) st v).1.content.length : Int)
              < hl + off) := by
  induction files with
  | nil =>
    intro st v hst
    exact ⟨0, by simp, rfl, Or.inl rfl, by omega⟩
  | cons f rest ih =>
    intro st v hst
    cases hf : w.files f with
    | none =>
      obtain ⟨used, hu1, hu2, hu3, hu4⟩ := ih st (v + 1) hst
      refine ⟨used + 1, by simpa using Nat.succ_le_succ hu1, ?_, ?_, ?_⟩
      · rw [grepScanGo_cons_none w matcher n hl off f rest st v hf, hu2,
          List.take_succ_cons, grepScanGo_nolimit_cons_none w matcher n f _ st v hf]
        have hv : v + 1 + used = v + (used + 1) := by omega
        rw [hv]
      · rcases hu3 with h | h
        · exact Or.inl (by simp [h])
        · refine Or.inr ?_
          rw [List.take_succ_cons, grepScanGo_nolimit_cons_none w matcher n f _ st v hf]
          exact h
      · intro j hj
        cases j with
        | zero => simpa [grepScanGo] using hst
        | succ j2 =>
          rw [List.take_succ_cons, grepScanGo_nolimit_cons_none w matcher n f _ st v hf]
          exact hu4 j2 (by omega)
    | some text =>
      by_cases hbreak :
          (((grepFile matcher "content" n (pathStr f) text st).content.length : Int) ≥ hl + off)
      · refine ⟨1, by simp, ?_, Or.inr ?_, ?_⟩
        · rw [grepScanGo_cons_some w matcher n hl off f rest st v text hf,
            if_pos ⟨rfl, hhl, hbreak⟩, List.take_succ_cons, List.take_zero,
            grepScanGo_nolimit_cons_some w matcher n f [] st v text hf]
          rfl
        · rw [List.take_succ_cons, List.take_zero,
            grepScanGo_nolimit_cons_some w matcher n f [] st v text hf]
          exact hbreak
        · intro j hj
          interval_cases j
          simpa [grepScanGo] using hst
      · have hst2 : (((grepFile matcher "content" n (pathStr f) text st).content.length : Int)
            < hl + off) := by omega
        obtain ⟨used, hu1, hu2, hu3, hu4⟩ := ih (grepFile matcher "content" n (pathStr f) text st)
          (v + 1) hst2
        refine ⟨used + 1, by simpa using Nat.succ_le_succ hu1, ?_, ?_, ?_⟩
        · rw [grepScanGo_cons_some w matcher n hl off f rest st v text hf,
            if_neg (by intro hc; exact absurd hc.2.2 hbreak), hu2,
            List.take_succ_cons, grepScanGo_nolimit_cons_some w matcher n f _ st v text hf]
          have hv : v + 1 + used = v + (used + 1) := by omega
          rw [hv]
        · rcases hu3 with h | h
          · exact Or.inl (by simp [h])
          · refine Or.inr ?_
            rw [List.take_succ_cons, grepScanGo_nolimit_cons_some w matcher n f _ st v text hf]
            exact h
        · intro j hj
          cases j with
          | zero => simpa [grepScanGo] using hst
          | succ j2 =>
            rw [List.take_succ_cons, grepScanGo_nolimit_cons_some w matcher n f _ st v text hf]
            exact hu4 j2 (by omega)

theorem grepScanGo_take_prefix (w : Workspace) (matcher : Str → Bool) (n : Bool)
    (files : List FsPath) (u : Nat) (st : GrepState) (v : Nat) :
    (grepScanGo w matcher "content" n 0 0 (files.take u) st v).1.content <+:
      (grepScanGo w matcher "content" n 0 0 files st v).1.content := by
  conv_rhs => rw [← List.take_append_drop u files]
  rw [grepScanGo_nolimit_append]
  rw [grepScanGo_nolimit_content w matcher n (files.drop u) _ _ 0]
  exact ⟨_, rfl⟩

theorem prefix_slice_eq {α : Type} (l₁ l₂ : List α) (k m : Nat) (hp : l₁ <+: l₂)
    (hlen : k + m ≤ l₁.length) : (l₁.drop k).take m = (l₂.drop k).take m := by
  obtain ⟨t, rfl⟩ := hp
  rw [List.drop_append_eq_append_drop]
  rw [show k - l₁.length = 0 from by omega, List.drop_zero]
  rw [List.take_append_eq_append_take]
  rw [show m - (l₁.drop k).length = 0 from by rw [List.length_drop]; omega]
  simp

theorem intercalate_nl_ne_nil (L : List Str) (h : L ≠ []) (hx : ∀ x ∈ L, x ≠ []) :
    List.intercalate (lit "\n") L ≠ [] := by
  cases L with
  | nil => exact absurd rfl h
  | cons x t =>
    cases t with
    | nil => rw [intercalate_single]; exact hx x (by simp)
    | cons y t2 =>
      rw [intercalate_cons₂]
      intro hc
      simp [lit] at hc

theorem run_grep_content_unfold (w : Workspace) (workdir : FsPath) (rx : Str → Bool)
    (ptxt : Str) (path glob : Option Str) (n : Bool) (hl off : Int) (sp : FsPath)
    (files : List FsPath)
    (hsp : safe_path w.lt workdir (path.getD (lit ".")) = .ok sp)
    (hfiles : files = (if (w.files sp).isSome then [sp]
        else match glob with
          | some g => (w.walk sp).filter (fun f => w.fnmatch (lastName f) g)
          | none => w.walk sp)) :
    run_grep w workdir (some rx) ptxt path "content" glob n hl off =
      (if grepSlice (grepScanGo w rx "content" n hl off files ⟨[], [], []⟩ 0).1.content hl off
          = ([] : Str)
       then lit "(no matches)"
       else (grepSlice (grepScanGo w rx "content" n hl off files ⟨[], [], []⟩ 0).1.content
          hl off).take 50000) := by
  subst hfiles
  rw [run_grep, hsp]
  rfl

theorem grepSlice_zero (content : List Str) :
    grepSlice content 0 0 = List.intercalate (lit "\n") content := rfl

theorem grepSlice_eq_slice (content : List Str) (k m : Nat) (hm : 0 < m)
    (hgood : ∀ x ∈ content, x ≠ [] ∧ ∀ c ∈ x, isLineBreak c = false) :
    grepSlice content (m : Int) (k : Int) =
      List.intercalate (lit "\n") ((content.drop k).take m) := by
  have hgood2 : ∀ x ∈ content.drop k, x ≠ [] ∧ ∀ c ∈ x, isLineBreak c = false :=
    fun x hx => hgood x (List.mem_of_mem_drop hx)
  simp only [grepSlice]
  rw [if_pos (by exact_mod_cast hm)]
  by_cases hk : (k : Int) > 0
  · rw [if_pos hk]
    simp only [Int.toNat_natCast]
    rw [splitlines_intercalate content hgood,
      splitlines_intercalate (content.drop k) hgood2]
  · rw [if_neg hk]
    have hk0 : k = 0 := by omega
    subst hk0
    simp only [Int.toNat_natCast]
    rw [splitlines_intercalate content hgood, List.drop_zero]

/-- C8: in content mode with offset k and head_limit m > 0, Grep returns
exactly lines k .. k+m−1 of the output the same query produces with no
offset and no limit; and the file scan stops at the shortest prefix of the
candidate files whose collected match count reaches head_limit + offset
(or at the end of the list).  The side conditions ask that the match lines
are newline-free and nonempty (true of real paths and splitlines output),
that the requested slice is nonempty, and that both outputs fit under the
50,000-character cap. -/
theorem c8_grep_offset_head_limit (w : Workspace) (workdir : FsPath) (rx : Str → Bool)
    (ptxt : Str) (path glob : Option Str) (n : Bool) (k m : Nat) (hm : 0 < m)
    (sp : FsPath)
    (hsp : safe_path w.lt workdir (path.getD (lit ".")) = .ok sp)
    (files : List FsPath)
    (hfiles : files = (if (w.files sp).isSome then [sp]
        else match glob with
          | some g => (w.walk sp).filter (fun f => w.fnmatch (lastName f) g)
          | none => w.walk sp))
    (L : List Str)
    (hL : L = (grepScanGo w rx "content" n 0 0 files ⟨[], [], []⟩ 0).1.content)
    (hgood : ∀ s ∈ L, s ≠ [] ∧ ∀ c ∈ s, isLineBreak c = false)
    (hslice : (L.drop k).take m ≠ [])
    (hsizeF : (List.intercalate (lit "\n") L).length ≤ 50000)
    (hsizeS : (List.intercalate (lit "\n") ((L.drop k).take m)).length ≤ 50000) :
    splitlines (run_grep w workdir (some rx) ptxt path "content" glob n (m : Int) (k : Int))
      = ((splitlines (run_grep w workdir (some rx) ptxt path "content" glob n 0 0)).drop k).take m
    ∧ ∃ used, (grepScanGo w rx "content" n (m : Int) (k : Int) files ⟨[], [], []⟩ 0).2 = used
        ∧ used ≤ files.length
        ∧ (used = files.length ∨
            (((grepScanGo w rx "content" n 0 0 (files.take used) ⟨[], [], []⟩ 0).1.content.length : Int)
               ≥ (m : Int) + (k : Int)))
        ∧ ∀ j < used,
            (((grepScanGo w rx "content" n 0 0 (files.take j) ⟨[], [], []⟩ 0).1.content.length : Int)
              < (m : Int) + (k : Int)) := by
  have hm' : (m : Int) > 0 := by exact_mod_cast hm
  obtain ⟨used, hu1, hu2, hu3, hu4⟩ :=
    grepScanGo_limit w rx n (m : Int) (k : Int) hm' files ⟨[], [], []⟩ 0
      (by simpa using (by omega : (0 : Int) < (m : Int) + (k : Int)))
  have hscan1 : (grepScanGo w rx "content" n (m : Int) (k : Int) files ⟨[], [], []⟩ 0).1.content
      = (grepScanGo w rx "content" n 0 0 (files.take used) ⟨[], [], []⟩ 0).1.content := by
    rw [hu2]
  have hpre : (grepScanGo w rx "content" n 0 0 (files.take used) ⟨[], [], []⟩ 0).1.content <+: L := by
    rw [hL]
    exact grepScanGo_take_prefix w rx n files used ⟨[], [], []⟩ 0
  have hgoodLu : ∀ x ∈ (grepScanGo w rx "content" n 0 0 (files.take used) ⟨[], [], []⟩ 0).1.content,
      x ≠ [] ∧ ∀ c ∈ x, isLineBreak c = false :=
    fun x hx => hgood x (hpre.sublist.subset hx)
  have hslice_eq :
      (((grepScanGo w rx "content" n 0 0 (files.take used) ⟨[], [], []⟩ 0).1.content.drop k).take m)
        = (L.drop k).take m := by
    rcases hu3 with hAll | hGe
    · rw [hAll, List.take_length, hL]
    · exact prefix_slice_eq _ L k m hpre (by omega)
  have hLne : L ≠ [] := by
    intro h0
    rw [h0] at hslice
    simp at hslice
  have hrun_full : run_grep w workdir (some rx) ptxt path "content" glob n 0 0
      = List.intercalate (lit "\n") L := by
    rw [run_grep_content_unfold w workdir rx ptxt path glob n 0 0 sp files hsp hfiles]
    rw [grepSlice_zero, ← hL]
    rw [if_neg (intercalate_nl_ne_nil L hLne (fun x hx => (hgood x hx).1))]
    exact List.take_of_length_le hsizeF
  have hrun_lim : run_grep w workdir (some rx) ptxt path "content" glob n (m : Int) (k : Int)
      = List.intercalate (lit "\n") ((L.drop k).take m) := by
    rw [run_grep_content_unfold w workdir rx ptxt path glob n (m : Int) (k : Int) sp files hsp hfiles]
    rw [hscan1, grepSlice_eq_slice _ k m hm hgoodLu, hslice_eq]
    rw [if_neg (intercalate_nl_ne_nil _ hslice
      (fun x hx => (hgood x ((List.drop_subset _ _) ((List.take_subset _ _) hx))).1))]
    exact List.take_of_length_le hsizeS
  constructor
  · rw [hrun_full, hrun_lim]
    rw [splitlines_intercalate L hgood]
    rw [splitlines_intercalate ((L.drop k).take m)
      (fun x hx => hgood x ((List.drop_subset _ _) ((List.take_subset _ _) hx)))]
  · refine ⟨used, ?_, hu1, hu3, hu4⟩
    rw [hu2]
    simp

/-- C8 witness: on a concrete workspace with three files and five matching
lines, Grep with offset 1 and head_limit 2 returns exactly lines 1..2 of
the unoffset, unlimited output. -/
theorem c8_grep_offset_head_limit_witness :
    splitlines (run_grep
        (wsWith [([lit "home", lit "ws", lit "a"], lit "p\nq"),
                 ([lit "home", lit "ws", lit "b"], lit "r"),
                 ([lit "home", lit "ws", lit "c"], lit "s\nt")])
        testRoot (some (fun _ => true)) (lit "x") none "content" none true
        ((2 : Nat) : Int) ((1 : Nat) : Int))
      = ((splitlines (run_grep
          (wsWith [([lit "home", lit "ws", lit "a"], lit "p\nq"),
                   ([lit "home", lit "ws", lit "b"], lit "r"),
                   ([lit "home", lit "ws", lit "c"], lit "s\nt")])
          testRoot (some (fun _ => true)) (lit "x") none "content" none true 0 0)).drop 1).take 2 :=
  (c8_grep_offset_head_limit
    (wsWith [([lit "home", lit "ws", lit "a"], lit "p\nq"),
             ([lit "home", lit "ws", lit "b"], lit "r"),
             ([lit "home", lit "ws", lit "c"], lit "s\nt")])
    testRoot (fun _ => true) (lit "x") none none true 1 2 (by decide)
    testRoot (by rfl)
    [[lit "home", lit "ws", lit "a"], [lit "home", lit "ws", lit "b"],
     [lit "home", lit "ws", lit "c"]] (by rfl)
    [lit "/home/ws/a:1:p", lit "/home/ws/a:2:q", lit "/home/ws/b:1:r",
     lit "/home/ws/c:1:s", lit "/home/ws/c:2:t"] (by decide)
    (by decide) (by decide) (by decide) (by decide)).1

end AgentCli

